import Mathlib

/-!
# Verification of the h17-parser HL7 SIU extraction core

A shallow embedding of `src/hl7_parser` (utils.py, models.py, exceptions.py,
parser.py) into Lean 4, followed by theorems settling the specification
claims about it.  Python strings are modelled as `String` / `List Char`;
Python `None` becomes `Option.none`; Python exceptions become an explicit
`Except` error type mirroring the exception classes of `exceptions.py`.
-/

namespace HL7

/-! ## Character and list-of-char utilities

Python `str.strip`, `str.split`, `str.startswith`, `str.replace` and
`'sep'.join`, modelled on `List Char` so that every definition reduces in
the kernel.  `isSpaceC` covers the ASCII whitespace characters stripped by
Python's `str.strip`.
-/

/-- ASCII whitespace, as stripped by Python `str.strip()`. -/
def isSpaceC (c : Char) : Bool :=
  decide (c.toNat = 32 ∨ c.toNat = 9 ∨ c.toNat = 10 ∨ c.toNat = 13 ∨ c.toNat = 11 ∨ c.toNat = 12)

/-- ASCII digit test (`\d` for the code's regexes, `str.isdigit` range). -/
def isDigitC (c : Char) : Bool :=
  decide (48 ≤ c.toNat ∧ c.toNat ≤ 57)

/-- Numeric value of an ASCII digit character. -/
def digVal (c : Char) : Nat := c.toNat - 48

/-- Python `str.strip()`: drop whitespace from both ends. -/
def stripL (l : List Char) : List Char :=
  ((l.dropWhile isSpaceC).reverse.dropWhile isSpaceC).reverse

/-- Auxiliary splitter: Python `str.split(d)` semantics (keeps empty parts,
always returns at least one part). -/
def splitCharAux (d : Char) : List Char → List Char → List (List Char)
  | [], acc => [acc.reverse]
  | c :: cs, acc =>
    if c = d then acc.reverse :: splitCharAux d cs []
    else splitCharAux d cs (c :: acc)

/-- Python `str.split(d)` for a single-character separator, on `List Char`. -/
def splitCharL (l : List Char) (d : Char) : List (List Char) :=
  splitCharAux d l []

/-- Python `str.split(d)` producing `String` parts. -/
def splitChar (s : String) (d : Char) : List String :=
  (splitCharL s.data d).map String.mk

/-- Python `d in s` for a single character. -/
def containsC (l : List Char) (d : Char) : Bool := l.any (· = d)

/-- Python `str.startswith(p)`. -/
def startsWithL : List Char → List Char → Bool
  | _, [] => true
  | [], _ :: _ => false
  | c :: cs, p :: ps => c = p && startsWithL cs ps

/-- Python `sep.join(parts)`. -/
def joinWith (sep : String) : List String → String
  | [] => ""
  | x :: xs => xs.foldl (fun a b => a ++ sep ++ b) x

/-- Python `'\r'.join(lines)` on `List Char` lines. -/
def interCR : List (List Char) → List Char
  | [] => []
  | [l] => l
  | l :: l' :: rest => l ++ '\r' :: interCR (l' :: rest)

/-- First pass of line-ending normalization: `str.replace("\r\n", "\r")`
(left-to-right, non-overlapping, exactly as Python's `str.replace`). -/
def replCRLF : List Char → List Char
  | '\r' :: '\n' :: rest => '\r' :: replCRLF rest
  | c :: rest => c :: replCRLF rest
  | [] => []

/-- Second pass: `str.replace("\n", "\r")`. -/
def replLF (l : List Char) : List Char :=
  l.map (fun c => if c = '\n' then '\r' else c)

/-! ## `utils.safe_split` -/

/-- `utils.safe_split(text, delimiter)`: `[]` for a falsy (empty) string,
otherwise Python `str.split`. -/
def safe_split (text : String) (delim : Char) : List String :=
  if text = "" then [] else splitChar text delim

/-- The ubiquitous guarded access of parser.py:
`xs[i] if len(xs) > i and xs[i] else None`. -/
def pyAt (xs : List String) (i : Nat) : Option String :=
  if i < xs.length ∧ xs.getD i "" ≠ "" then some (xs.getD i "") else none

/-- `' '.join` over the present (`Some`) parts, `None` when no part is
present — the `name_parts` pattern of parser.py and utils.py. -/
def joinParts (parts : List (Option String)) : Option String :=
  let ps := parts.filterMap id
  if ps = [] then none else some (joinWith " " ps)

/-! ## `utils.parse_hl7_timestamp`

The code strips the input, peels a trailing `[+-]\d{4}` zone offset with a
regex, dispatches on the remaining length, parses the leading slice with
`datetime.strptime` on an all-digit format, and re-renders with
`datetime.isoformat()`.  `strptimeN` models `strptime` on the all-digit
formats `%Y%m%d`, `%Y%m%d%H`, `%Y%m%d%H%M`, `%Y%m%d%H%M%S`: on inputs of
the exact expected length the greedy digit groups are forced to widths
4/2/2/2/2/2, any non-digit fails the match, and out-of-range calendar
components raise `ValueError` (caught by the code, yielding `None`).
-/

/-- Gregorian month length, as validated by `datetime`. -/
def daysInMonth (y m : Nat) : Nat :=
  if m = 2 then (if (y % 4 = 0 ∧ y % 100 ≠ 0) ∨ y % 400 = 0 then 29 else 28)
  else if m = 4 ∨ m = 6 ∨ m = 9 ∨ m = 11 then 30
  else 31

/-- Value of a digit string, most significant first. -/
def digitsVal (l : List Char) : Nat :=
  l.foldl (fun a c => a * 10 + digVal c) 0

/-- All characters are ASCII digits. -/
def isDigits (l : List Char) : Bool := l.all isDigitC

/-- The component ranges `datetime.strptime` + the `datetime` constructor
accept: year 1–9999, month 1–12, day within the month, hour ≤ 23,
minute ≤ 59, second ≤ 59. -/
def validDateTime (y mo d h mi s : Nat) : Bool :=
  decide (1 ≤ y ∧ y ≤ 9999 ∧ 1 ≤ mo ∧ mo ≤ 12 ∧ 1 ≤ d ∧ d ≤ daysInMonth y mo ∧
    h ≤ 23 ∧ mi ≤ 59 ∧ s ≤ 59)

/-- `datetime.strptime` on the all-digit formats used by the code.
`timeDigits` is the number of trailing time digits demanded by the format
(0 for `%Y%m%d`, 2 for `%Y%m%d%H`, 4 for `...%M`, 6 for `...%S`); the
input must have exactly `8 + timeDigits` characters, all digits, with
valid calendar components.  Missing time parts default to 0. -/
def strptimeN (l : List Char) (timeDigits : Nat) : Option (Nat × Nat × Nat × Nat × Nat × Nat) :=
  if l.length = 8 + timeDigits ∧ isDigits l then
    if validDateTime (digitsVal (l.take 4)) (digitsVal ((l.drop 4).take 2))
        (digitsVal ((l.drop 6).take 2)) (digitsVal ((l.drop 8).take 2))
        (digitsVal ((l.drop 10).take 2)) (digitsVal ((l.drop 12).take 2)) then
      some (digitsVal (l.take 4), digitsVal ((l.drop 4).take 2),
        digitsVal ((l.drop 6).take 2), digitsVal ((l.drop 8).take 2),
        digitsVal ((l.drop 10).take 2), digitsVal ((l.drop 12).take 2))
    else none
  else none

/-- Two-digit zero-padded rendering (`%02d`). -/
def pad2 (n : Nat) : List Char :=
  [Nat.digitChar (n / 10 % 10), Nat.digitChar (n % 10)]

/-- Four-digit zero-padded rendering (`%04d`). -/
def pad4 (n : Nat) : List Char :=
  [Nat.digitChar (n / 1000 % 10), Nat.digitChar (n / 100 % 10),
   Nat.digitChar (n / 10 % 10), Nat.digitChar (n % 10)]

/-- `datetime.isoformat()` for a zero-microsecond datetime, and equally
`date().isoformat() + "T00:00:00"` when the time parts are zero:
`YYYY-MM-DDTHH:MM:SS`. -/
def isoDateTime (y mo d h mi s : Nat) : List Char :=
  pad4 y ++ '-' :: (pad2 mo ++ '-' :: (pad2 d ++ 'T' ::
    (pad2 h ++ ':' :: (pad2 mi ++ ':' :: pad2 s))))

/-- Does a 5-character tail match the regex `[+-]\d{4}`? -/
def isTZ : List Char → Bool
  | [sg, a, b, c, d] =>
    (decide (sg = '+') || decide (sg = '-')) && isDigitC a && isDigitC b &&
      isDigitC c && isDigitC d
  | _ => false

/-- `re.search(r'([+-]\d{4})$', t)`: peel a trailing zone offset,
returning `(offset?, rest)`. -/
def tzSplit (l : List Char) : Option (List Char) × List Char :=
  if 5 ≤ l.length ∧ isTZ (l.drop (l.length - 5)) then
    (some (l.drop (l.length - 5)), l.take (l.length - 5))
  else (none, l)

/-- Append the zone offset as `±HH:MM`
(`f"{tz[0]}{tz[1:3]}:{tz[3:5]}"`). -/
def appendTZ (iso : List Char) : Option (List Char) → List Char
  | some [sg, a, b, c, d] => iso ++ sg :: a :: b :: ':' :: c :: d :: []
  | _ => iso

/-- Length dispatch of `parse_hl7_timestamp` after the zone offset has
been removed: exactly the `timestamp_len` cascade of utils.py. -/
def tsParse (t : List Char) : Option (Nat × Nat × Nat × Nat × Nat × Nat) :=
  if 14 ≤ t.length then strptimeN (t.take 14) 6
  else if 12 ≤ t.length then strptimeN (t.take 12) 4
  else if 10 ≤ t.length then strptimeN (t.take 10) 2
  else if 8 ≤ t.length then strptimeN (t.take 8) 0
  else if 6 ≤ t.length then strptimeN (t.take 6 ++ ['0', '1']) 0
  else if 4 ≤ t.length then strptimeN (t.take 4 ++ ['0', '1', '0', '1']) 0
  else none

/-- Parse after tz removal, then render via `isoformat` and append the
zone offset. -/
def tsCore (t : List Char) (tz : Option (List Char)) : Option (List Char) :=
  (tsParse t).map
    (fun v => appendTZ (isoDateTime v.1 v.2.1 v.2.2.1 v.2.2.2.1 v.2.2.2.2.1 v.2.2.2.2.2) tz)

/-- `utils.parse_hl7_timestamp` on the character list of the input. -/
def parse_hl7_timestampL (l : List Char) : Option (List Char) :=
  if stripL l = [] then none
  else tsCore (tzSplit (stripL l)).2 (tzSplit (stripL l)).1

/-- `utils.parse_hl7_timestamp`. -/
def parse_hl7_timestamp (s : String) : Option String :=
  (parse_hl7_timestampL s.data).map String.mk

/-! ## `utils.parse_name`

Note: splits on the literal `'^'`; it receives no delimiter set. -/

/-- `utils.parse_name`: `(last_name, first_name, full_name)`. -/
def parse_name (s : String) : Option String × Option String × Option String :=
  if s = "" then (none, none, none)
  else
    let comps := splitChar s '^'
    let last := pyAt comps 0
    let first := pyAt comps 1
    let middle := pyAt comps 2
    let sfx := pyAt comps 3
    let pfx := pyAt comps 4
    (last, first, joinParts [pfx, first, middle, last, sfx])

/-! ## Data model (`models.py`) and exceptions (`exceptions.py`) -/

/-- `models.Provider`. -/
structure Provider where
  id : Option String := none
  name : Option String := none
deriving DecidableEq, Repr

/-- `models.Patient`. -/
structure Patient where
  id : Option String := none
  first_name : Option String := none
  last_name : Option String := none
  dob : Option String := none
  gender : Option String := none
deriving DecidableEq, Repr

/-- `models.Appointment`. -/
structure Appointment where
  appointment_id : Option String := none
  appointment_datetime : Option String := none
  patient : Option Patient := none
  provider : Option Provider := none
  location : Option String := none
  reason : Option String := none
deriving DecidableEq, Repr

/-- The per-message delimiter set (`delimiters` dict of parser.py). -/
structure Delimiters where
  field : Char
  component : Char
  subcomponent : Char
  repetition : Char
  escape : Char
deriving DecidableEq, Repr

/-- The default delimiter dict of `HL7Parser.parse_message`. -/
def defaultDelims : Delimiters :=
  { field := '|', component := '^', subcomponent := '&', repetition := '~', escape := '\\' }

/-- The segment map: Python `Dict[str, List[List[str]]]` with insertion
order, modelled as an association list. -/
abbrev Segments : Type := List (String × List (List String))

/-- `models.HL7Message`. -/
structure HL7Message where
  raw_message : String
  segments : Segments
  delimiters : Delimiters
deriving DecidableEq

/-- Dict lookup: `segments[k]` / `k in segments`. -/
def segLookup (segs : Segments) (k : String) : Option (List (List String)) :=
  (List.find? (fun p => p.1 = k) segs).map (fun p => p.2)

/-- The exception classes of `exceptions.py`.  `hl7Parse` is the base
`HL7ParseError`; the others are its subclasses. -/
inductive PyErr where
  | hl7Parse (msg : String)
  | invalidMessage (msg : String)
  | missingSegment (msg : String)
  | invalidTimestamp (msg : String)
  | fieldParse (msg : String)
deriving DecidableEq, Repr

/-- The Python class name of an exception value — what an `except` clause
discriminates on. -/
def errClass : PyErr → String
  | .hl7Parse _ => "HL7ParseError"
  | .invalidMessage _ => "InvalidMessageError"
  | .missingSegment _ => "MissingSegmentError"
  | .invalidTimestamp _ => "InvalidTimestampError"
  | .fieldParse _ => "FieldParseError"

/-- Class of the error of an `Except` result, `none` on success. -/
def resultErrClass {α : Type} : Except PyErr α → Option String
  | .ok _ => none
  | .error e => some (errClass e)

/-! ## `HL7Parser.parse_message` -/

/-- Append a tokenized segment to the map, Python-dict style: extend the
entry for an existing key in place, append a new key at the end. -/
def insertSeg : Segments → String → List String → Segments
  | [], k, v => [(k, [v])]
  | (k', vs) :: rest, k, v =>
    if k' = k then (k', vs ++ [v]) :: rest else (k', vs) :: insertSeg rest k v

/-- The segment loop of `parse_message`: skip empty segments, key on the
first three characters, split the whole segment on the field delimiter. -/
def tokenizeSegments (segs : List (List Char)) (fd : Char) : Segments :=
  segs.foldl
    (fun acc seg =>
      if seg = [] then acc
      else insertSeg acc (String.mk (seg.take 3)) ((splitCharL seg fd).map String.mk))
    []

/-- The delimiter resolution of `parse_message`: `msh[3]` is the field
delimiter; the four encoding characters `msh[5:9]` override the defaults
only when `msh[4]` echoes the field delimiter and all four are present. -/
def resolveDelims (s0 : List Char) : Delimiters :=
  if 4 < s0.length ∧ s0.getD 4 ' ' = s0.getD 3 ' ' then
    if 4 ≤ ((s0.drop 5).take 4).length then
      { field := s0.getD 3 ' ',
        component := ((s0.drop 5).take 4).getD 0 ' ',
        repetition := ((s0.drop 5).take 4).getD 1 ' ',
        escape := ((s0.drop 5).take 4).getD 2 ' ',
        subcomponent := ((s0.drop 5).take 4).getD 3 ' ' }
    else { defaultDelims with field := s0.getD 3 ' ' }
  else { defaultDelims with field := s0.getD 3 ' ' }

/-- `HL7Parser.parse_message`. -/
def parse_message (raw : String) : Except PyErr HL7Message :=
  if stripL raw.data = [] then .error (.invalidMessage "Empty message")
  else
    match splitCharL (stripL (replLF (replCRLF raw.data))) '\r' with
    | [] => .error (.invalidMessage "No segments found")
    | s0 :: rest =>
      if ¬ startsWithL s0 ['M', 'S', 'H'] then
        .error (.invalidMessage "Message must start with MSH segment")
      else if s0.length < 4 then .error (.invalidMessage "Invalid MSH segment")
      else
        .ok { raw_message := raw,
              segments := tokenizeSegments (s0 :: rest) (s0.getD 3 ' '),
              delimiters := resolveDelims s0 }

/-! ## `HL7Parser.validate_siu_message`

`message.segments['MSH'][0]` is modelled with `headD []`; parsed messages
never carry an empty occurrence list (proved below), so the two agree on
every message `parse_message` produces.  Note the message-type split uses
the literal `'^'`, exactly as the source does. -/

/-- The `msg_type` computed by `validate_siu_message` from the MSH field
list: field index 8, split on the literal `'^'` when one occurs. -/
def validateMsgType (msh : List String) : String :=
  if containsC (msh.getD 8 "").data '^' then (splitChar (msh.getD 8 "") '^').headD ""
  else msh.getD 8 ""

/-- `HL7Parser.validate_siu_message`. -/
def validate_siu_message (m : HL7Message) : Except PyErr Bool :=
  match segLookup m.segments "MSH" with
  | none => .error (.invalidMessage "MSH segment missing")
  | some segs =>
    if (segs.headD []).length ≤ 8 then
      .error (.invalidMessage "MSH segment missing message type field")
    else
      if validateMsgType (segs.headD []) ≠ "SIU" then
        .error (.invalidMessage
          ("Expected SIU message type, got " ++ validateMsgType (segs.headD [])))
      else .ok true

/-! ## `HL7Parser.extract_appointment`

Decomposed exactly along the source's three segment blocks (SCH, PID,
PV1).  Each Python `xs[i]` access guarded by `len(xs) > i and xs[i]` is
`pyAt xs i`; conditional attribute assignment becomes a `match` that
leaves the record unchanged in the `none` case. -/

/-- The `SCH.2` fallback of the datetime logic: component index 3 if
present, else the first non-empty component of length ≥ 8 that parses. -/
def schDatetimeSCH2 (delims : Delimiters) (sch : List String) : Option String × Bool :=
  match pyAt sch 2 with
  | some f2 =>
    match pyAt (safe_split f2 delims.component) 3 with
    | some v => (parse_hl7_timestamp v, true)
    | none =>
      match (safe_split f2 delims.component).findSome?
          (fun c => if c ≠ "" ∧ 8 ≤ c.length then parse_hl7_timestamp c else none) with
      | some v => (some v, true)
      | none => (none, false)
  | none => (none, false)

/-- SCH datetime logic: `(value_assigned, datetime_found)`.  The first
component 4 (index 3) that is present wins and is assigned even when it
fails to parse; the ≥8-character scan over SCH field 2 runs only when
neither component 4 was present. -/
def schDatetime (delims : Delimiters) (sch : List String) : Option String × Bool :=
  match pyAt sch 11 with
  | some f11 =>
    match pyAt (safe_split f11 delims.component) 3 with
    | some v => (parse_hl7_timestamp v, true)
    | none => schDatetimeSCH2 delims sch
  | none => schDatetimeSCH2 delims sch

/-- SCH location: field 11 component index 2, else field 4 component
index 2. -/
def schLocation (delims : Delimiters) (sch : List String) : Option String :=
  let l1 :=
    match pyAt sch 11 with
    | some f11 => pyAt (safe_split f11 delims.component) 2
    | none => none
  match l1 with
  | some v => some v
  | none =>
    match pyAt sch 4 with
    | some f4 => pyAt (safe_split f4 delims.component) 2
    | none => none

/-- SCH reason: field 7, else field 3. -/
def schReason (sch : List String) : Option String :=
  match pyAt sch 7 with
  | some v => some v
  | none => pyAt sch 3

/-- Provider from SCH field 16 (`Last^First^Middle^Suffix^ID`). -/
def provFromSCH16 (comps : List String) : Option Provider :=
  let provider_id := pyAt comps 4
  if provider_id.isSome ∨ (comps.take 4).any (· ≠ "") then
    some { id := provider_id,
           name := joinParts [pyAt comps 1, pyAt comps 2, pyAt comps 0, pyAt comps 3] }
  else none

/-- Provider from SCH field 5 (`^Last^First^Title^ID`), only when the
field has more than one component. -/
def provFromSCH5 (comps : List String) : Option Provider :=
  if 1 < comps.length then
    some { id := pyAt comps 4,
           name := joinParts [pyAt comps 2, pyAt comps 1, pyAt comps 3] }
  else none

/-- SCH provider: field 16, else field 5. -/
def schProvider (delims : Delimiters) (sch : List String) : Option Provider :=
  let p1 :=
    match pyAt sch 16 with
    | some f16 => provFromSCH16 (safe_split f16 delims.component)
    | none => none
  match p1 with
  | some p => some p
  | none =>
    match pyAt sch 5 with
    | some f5 => provFromSCH5 (safe_split f5 delims.component)
    | none => none

/-- The SCH block of `extract_appointment`.  Each attribute is assigned
independently and only when its candidate chain produced a value, exactly
as the source's conditional assignments do. -/
def schPass (delims : Delimiters) (sch : List String) (a : Appointment) : Appointment :=
  { a with
    appointment_id :=
      match pyAt sch 1 with
      | some v => some v
      | none => a.appointment_id,
    appointment_datetime :=
      if (schDatetime delims sch).2 then (schDatetime delims sch).1
      else a.appointment_datetime,
    reason :=
      match schReason sch with
      | some v => some v
      | none => a.reason,
    location :=
      match schLocation delims sch with
      | some v => some v
      | none => a.location,
    provider :=
      match schProvider delims sch with
      | some p => some p
      | none => a.provider }

/-- The patient built by the PID block from a fresh `Patient()`; note
`parse_name` (literal `'^'`) decomposes the name, and a field the segment
lacks keeps its initial `None`. -/
def pidPatient (pid : List String) : Patient :=
  { id := pyAt pid 3,
    last_name :=
      match pyAt pid 5 with
      | some v => (parse_name v).1
      | none => none,
    first_name :=
      match pyAt pid 5 with
      | some v => (parse_name v).2.1
      | none => none,
    dob :=
      match pyAt pid 7 with
      | some v => parse_hl7_timestamp v
      | none => none,
    gender := pyAt pid 8 }

/-- The PID block of `extract_appointment`: the patient object is
attached whenever a PID segment exists. -/
def pidPass (pid : List String) (a : Appointment) : Appointment :=
  { a with patient := some (pidPatient pid) }

/-- The PV1.7 provider id: component index 4, else component index 6. -/
def pv1ProviderId (comps : List String) : Option String :=
  match pyAt comps 4 with
  | some v => some v
  | none => pyAt comps 6

/-- PV1 field 7 provider merge on the split components: starts from the
already-extracted provider (or a fresh empty one), replaces `id` only
when component index 4 (else 6) is present, replaces `name` only when one
of component indexes 1–3 is present. -/
def pv1ProviderC (comps : List String) (old : Option Provider) : Provider :=
  { id :=
      match pv1ProviderId comps with
      | some v => some v
      | none => (old.getD {}).id,
    name :=
      if (pyAt comps 1).isSome ∨ (pyAt comps 2).isSome ∨ (pyAt comps 3).isSome then
        joinParts [pyAt comps 2, pyAt comps 1, pyAt comps 3]
      else (old.getD {}).name }

/-- PV1 field 7 provider merge. -/
def pv1Provider (delims : Delimiters) (f7 : String) (old : Option Provider) : Provider :=
  pv1ProviderC (safe_split f7 delims.component) old

/-- The PV1 block of `extract_appointment`: provider merge from field 7,
then unconditional location override from field 3 component index 0. -/
def pv1Pass (delims : Delimiters) (pv1 : List String) (a : Appointment) : Appointment :=
  { a with
    provider :=
      match pyAt pv1 7 with
      | some f7 => some (pv1Provider delims f7 a.provider)
      | none => a.provider,
    location :=
      match pyAt pv1 3 with
      | some f3 =>
        match pyAt (safe_split f3 delims.component) 0 with
        | some v => some v
        | none => a.location
      | none => a.location }

/-- `HL7Parser.extract_appointment`.  The `segments['X'][0]` accesses are
modelled with `headD []`; `extract_appointmentChecked` below models them
as genuine (possibly failing) index accesses. -/
def extract_appointment (m : HL7Message) : Appointment :=
  let a : Appointment := {}
  let a := match segLookup m.segments "SCH" with
    | some segs => schPass m.delimiters (segs.headD []) a
    | none => a
  let a := match segLookup m.segments "PID" with
    | some segs => pidPass (segs.headD []) a
    | none => a
  let a := match segLookup m.segments "PV1" with
    | some segs => pv1Pass m.delimiters (segs.headD []) a
    | none => a
  a

/-- `extract_appointment` with every raise-capable operation made
explicit: the three `segments['X'][0]` list accesses are `List.get? 0`
(Python raises `IndexError` on an empty occurrence list); every other
subscript in the source sits behind a short-circuit `len(...) > i and ...`
guard and cannot raise, which the total `pyAt` encoding makes evident.
A `none` result models an uncaught exception. -/
def extract_appointmentChecked (m : HL7Message) : Option Appointment := do
  let a : Appointment := {}
  let a ← match segLookup m.segments "SCH" with
    | some segs => (segs.get? 0).map (fun sch => schPass m.delimiters sch a)
    | none => some a
  let a ← match segLookup m.segments "PID" with
    | some segs => (segs.get? 0).map (fun pid => pidPass pid a)
    | none => some a
  let a ← match segLookup m.segments "PV1" with
    | some segs => (segs.get? 0).map (fun pv1 => pv1Pass m.delimiters pv1 a)
    | none => some a
  some a

/-! ## `HL7Message.get_field` (`models.py`) -/

/-- `HL7Message.get_field`.  Mirrors the source: unknown segment type or
out-of-range field index give `none`; a requested component is returned
by direct (0-based) list index; when the component index is out of range,
or the field value is empty, the whole field value is returned. -/
def get_field (m : HL7Message) (segment_type : String) (field_index : Nat)
    (component_index : Option Nat := none) : Option String :=
  match segLookup m.segments segment_type with
  | none => none
  | some segs =>
    if segs = [] then none
    else
      let segment := segs.headD []
      if segment.length ≤ field_index then none
      else
        let field_value := segment.getD field_index ""
        match component_index with
        | some ci =>
          if field_value ≠ "" then
            let comps := safe_split field_value m.delimiters.component
            if ci < comps.length then some (comps.getD ci "") else some field_value
          else some field_value
        | none => some field_value

/-! ## `HL7Parser.parse_siu_message` and the batch loop of
`HL7FileParser.parse_file` -/

/-- `HL7Parser.parse_siu_message`: parse, validate, extract.  (The
source's blanket `except` re-wrap never fires in the model: the model
raises only `HL7ParseError` subclasses.) -/
def parse_siu_message (raw : String) : Except PyErr Appointment := do
  let m ← parse_message raw
  let _ ← validate_siu_message m
  .ok (extract_appointment m)

/-- The message loop of `HL7FileParser.parse_file`: each message that
raises `InvalidMessageError` or any other `HL7ParseError` is skipped, the
rest are collected in order. -/
def processMessages (raws : List String) : List Appointment :=
  raws.foldl
    (fun acc raw =>
      match parse_siu_message raw with
      | .ok a => acc ++ [a]
      | .error _ => acc)
    []

/-! ## `HL7FileParser.split_messages` -/

/-- MSH boundary test on a line (`line.startswith('MSH')`). -/
def isMSHLine (l : List Char) : Bool := startsWithL l ['M', 'S', 'H']

/-- The line loop of `split_messages`: strip each line, skip blanks,
flush the accumulated message when an `MSH`-prefixed line arrives, join
each finished message with `'\r'`. -/
def smLoop : List (List Char) → List String → List (List Char) → List String
  | [], msgs, cur => if cur ≠ [] then msgs ++ [String.mk (interCR cur)] else msgs
  | l :: rest, msgs, cur =>
    if stripL l = [] then smLoop rest msgs cur
    else if isMSHLine (stripL l) then
      if cur ≠ [] then smLoop rest (msgs ++ [String.mk (interCR cur)]) [stripL l]
      else smLoop rest msgs (cur ++ [stripL l])
    else smLoop rest msgs (cur ++ [stripL l])

/-- `HL7FileParser.split_messages`. -/
def split_messages (file_content : String) : List String :=
  smLoop (splitCharL (replLF (replCRLF file_content.data)) '\r') [] []

/-! ## Specification-side splitter (for the multi-message claim)

`specChunks` renders the spec's partition rule directly: the first chunk
starts at the first line, every later chunk starts at an `MSH`-prefixed
line, and a chunk extends up to (not including) the next such boundary. -/

/-- Cleaned line list: normalized line endings, per-line strip, blanks
removed. -/
def cleanLines (s : String) : List (List Char) :=
  ((splitCharL (replLF (replCRLF s.data)) '\r').map stripL).filter (fun l => l ≠ [])

/-- Spec-side chunking at MSH boundaries. -/
def specChunks : List (List Char) → List (List (List Char))
  | [] => []
  | l :: rest =>
    (l :: rest.takeWhile (fun x => !isMSHLine x)) ::
      specChunks (rest.dropWhile (fun x => !isMSHLine x))
termination_by l => l.length
decreasing_by
  simp only [List.length_cons]
  exact Nat.lt_succ_of_le ((List.dropWhile_sublist _).length_le)

/-- The loop of `split_messages` on already-clean lines (no blank lines,
no re-stripping). -/
def smChunksLoop : List (List Char) → List String → List (List Char) → List String
  | [], msgs, cur => if cur ≠ [] then msgs ++ [String.mk (interCR cur)] else msgs
  | l :: rest, msgs, cur =>
    if isMSHLine l then
      if cur ≠ [] then smChunksLoop rest (msgs ++ [String.mk (interCR cur)]) [l]
      else smChunksLoop rest msgs (cur ++ [l])
    else smChunksLoop rest msgs (cur ++ [l])

/-! ## Basic lemmas about the character utilities -/

theorem digitChar_isDigit {n : Nat} (h : n < 10) : isDigitC (Nat.digitChar n) = true := by
  interval_cases n <;> rfl

theorem digVal_digitChar {n : Nat} (h : n < 10) : digVal (Nat.digitChar n) = n := by
  interval_cases n <;> rfl

theorem pad2_length (n : Nat) : (pad2 n).length = 2 := rfl

theorem pad4_length (n : Nat) : (pad4 n).length = 4 := rfl

theorem pad2_digits (n : Nat) : ∀ c ∈ pad2 n, isDigitC c = true := by
  intro c hc
  simp only [pad2, List.mem_cons, List.not_mem_nil, or_false] at hc
  rcases hc with h | h <;> subst h <;> exact digitChar_isDigit (Nat.mod_lt _ (by norm_num))

theorem pad4_digits (n : Nat) : ∀ c ∈ pad4 n, isDigitC c = true := by
  intro c hc
  simp only [pad4, List.mem_cons, List.not_mem_nil, or_false] at hc
  rcases hc with h | h | h | h <;> subst h <;>
    exact digitChar_isDigit (Nat.mod_lt _ (by norm_num))

theorem digitsVal_pad2 {n : Nat} (h : n < 100) : digitsVal (pad2 n) = n := by
  have h1 : n / 10 % 10 < 10 := Nat.mod_lt _ (by norm_num)
  have h2 : n % 10 < 10 := Nat.mod_lt _ (by norm_num)
  simp only [digitsVal, pad2, List.foldl_cons, List.foldl_nil,
    digVal_digitChar h1, digVal_digitChar h2]
  omega

theorem digitsVal_pad4 {n : Nat} (h : n < 10000) : digitsVal (pad4 n) = n := by
  have h1 : n / 1000 % 10 < 10 := Nat.mod_lt _ (by norm_num)
  have h2 : n / 100 % 10 < 10 := Nat.mod_lt _ (by norm_num)
  have h3 : n / 10 % 10 < 10 := Nat.mod_lt _ (by norm_num)
  have h4 : n % 10 < 10 := Nat.mod_lt _ (by norm_num)
  simp only [digitsVal, pad4, List.foldl_cons, List.foldl_nil,
    digVal_digitChar h1, digVal_digitChar h2, digVal_digitChar h3, digVal_digitChar h4]
  omega

theorem isSpaceC_eq_false_of_digit {c : Char} (h : isDigitC c = true) : isSpaceC c = false := by
  simp only [isDigitC, decide_eq_true_eq] at h
  simp only [isSpaceC, decide_eq_false_iff_not]
  omega

theorem dropWhile_space_eq_self (l : List Char) (h : ∀ c ∈ l, isSpaceC c = false) :
    l.dropWhile isSpaceC = l := by
  cases l with
  | nil => rfl
  | cons a t => simp [List.dropWhile_cons, h a (by simp)]

theorem stripL_eq_self (l : List Char) (h : ∀ c ∈ l, isSpaceC c = false) : stripL l = l := by
  unfold stripL
  rw [dropWhile_space_eq_self l h,
    dropWhile_space_eq_self _ (fun c hc => h c (List.mem_reverse.mp hc)),
    List.reverse_reverse]

theorem char_ne_of_digit {c c' : Char} (h : isDigitC c = true) (h' : isDigitC c' = false) :
    c ≠ c' := by
  intro he
  subst he
  rw [h] at h'
  exact Bool.noConfusion h'

theorem isTZ_false_of_head_digit {a : Char} (t : List Char) (h : isDigitC a = true) :
    isTZ (a :: t) = false := by
  have hp : ¬ a = '+' := char_ne_of_digit h (by decide)
  have hm : ¬ a = '-' := char_ne_of_digit h (by decide)
  match t with
  | [] => rfl
  | [_] => rfl
  | [_, _] => rfl
  | [_, _, _] => rfl
  | [b, c, d, e] =>
    simp [isTZ, hp, hm]
  | _ :: _ :: _ :: _ :: _ :: _ => rfl

theorem tzSplit_digits (l : List Char) (h : ∀ c ∈ l, isDigitC c = true) :
    tzSplit l = (none, l) := by
  unfold tzSplit
  cases hd : l.drop (l.length - 5) with
  | nil => simp [hd, isTZ]
  | cons a t =>
    have ha : a ∈ l := by
      have : a ∈ l.drop (l.length - 5) := by rw [hd]; exact List.mem_cons_self a t
      exact List.mem_of_mem_drop this
    rw [isTZ_false_of_head_digit t (h a ha)]
    simp

theorem drop_take_block {a b rest : List Char} {n k : Nat} (ha : a.length = n)
    (hb : b.length = k) : ((a ++ (b ++ rest)).drop n).take k = b := by
  rw [List.drop_left' ha, List.take_left' hb]

theorem daysInMonth_le (y m : Nat) : daysInMonth y m ≤ 31 := by
  unfold daysInMonth
  split_ifs <;> omega

theorem daysInMonth_ge (y m : Nat) : 28 ≤ daysInMonth y m := by
  unfold daysInMonth
  split_ifs <;> omega

theorem validDateTime_bounds {y mo d h mi s : Nat} (hv : validDateTime y mo d h mi s = true) :
    1 ≤ y ∧ y ≤ 9999 ∧ 1 ≤ mo ∧ mo ≤ 12 ∧ 1 ≤ d ∧ d ≤ 31 ∧ h ≤ 23 ∧ mi ≤ 59 ∧ s ≤ 59 := by
  simp only [validDateTime, decide_eq_true_eq] at hv
  have := daysInMonth_le y mo
  omega

/-! ## `strptimeN` on rendered components -/

theorem strptimeN_pads14 (y mo d h mi s : Nat) (hy : y ≤ 9999) (hmo : mo ≤ 99) (hd : d ≤ 99)
    (hh : h ≤ 99) (hmi : mi ≤ 99) (hs : s ≤ 99) :
    strptimeN (pad4 y ++ pad2 mo ++ pad2 d ++ pad2 h ++ pad2 mi ++ pad2 s) 6 =
      if validDateTime y mo d h mi s then some (y, mo, d, h, mi, s) else none := by
  set L := pad4 y ++ pad2 mo ++ pad2 d ++ pad2 h ++ pad2 mi ++ pad2 s with hL
  have hlen : L.length = 14 := by simp [hL, pad2_length, pad4_length]
  have hdigL : ∀ c ∈ L, isDigitC c = true := by
    intro c hc
    simp only [hL, List.mem_append] at hc
    rcases hc with ((((hc | hc) | hc) | hc) | hc) | hc
    exacts [pad4_digits y c hc, pad2_digits mo c hc, pad2_digits d c hc,
      pad2_digits h c hc, pad2_digits mi c hc, pad2_digits s c hc]
  have hdig : isDigits L = true := by
    simp only [isDigits, List.all_eq_true]
    exact hdigL
  have e1 : L = pad4 y ++ (pad2 mo ++ (pad2 d ++ (pad2 h ++ (pad2 mi ++ pad2 s)))) := by
    simp [hL, List.append_assoc]
  have e2 : L = (pad4 y ++ pad2 mo) ++ (pad2 d ++ (pad2 h ++ (pad2 mi ++ pad2 s))) := by
    simp [hL, List.append_assoc]
  have e3 : L = (pad4 y ++ pad2 mo ++ pad2 d) ++ (pad2 h ++ (pad2 mi ++ pad2 s)) := by
    simp [hL, List.append_assoc]
  have e4 : L = (pad4 y ++ pad2 mo ++ pad2 d ++ pad2 h) ++ (pad2 mi ++ pad2 s) := by
    simp [hL, List.append_assoc]
  have e5 : L = (pad4 y ++ pad2 mo ++ pad2 d ++ pad2 h ++ pad2 mi) ++ pad2 s := by
    simp [hL, List.append_assoc]
  have t1 : L.take 4 = pad4 y := by rw [e1]; exact List.take_left' (pad4_length y)
  have t2 : (L.drop 4).take 2 = pad2 mo := by
    rw [e1]; exact drop_take_block (pad4_length y) (pad2_length mo)
  have t3 : (L.drop 6).take 2 = pad2 d := by
    rw [e2]
    exact drop_take_block (by simp [pad4_length, pad2_length]) (pad2_length d)
  have t4 : (L.drop 8).take 2 = pad2 h := by
    rw [e3]
    exact drop_take_block (by simp [pad4_length, pad2_length]) (pad2_length h)
  have t5 : (L.drop 10).take 2 = pad2 mi := by
    rw [e4]
    exact drop_take_block (by simp [pad4_length, pad2_length]) (pad2_length mi)
  have t6 : (L.drop 12).take 2 = pad2 s := by
    rw [e5, List.drop_left' (by simp [pad4_length, pad2_length])]
    exact List.take_of_length_le (by simp [pad2_length])
  unfold strptimeN
  rw [if_pos ⟨by omega, hdig⟩, t1, t2, t3, t4, t5, t6,
    digitsVal_pad4 (by omega), digitsVal_pad2 (by omega : mo < 100),
    digitsVal_pad2 (by omega : d < 100), digitsVal_pad2 (by omega : h < 100),
    digitsVal_pad2 (by omega : mi < 100), digitsVal_pad2 (by omega : s < 100)]

theorem strptimeN_pads12 (y mo d h mi : Nat) (hy : y ≤ 9999) (hmo : mo ≤ 99) (hd : d ≤ 99)
    (hh : h ≤ 99) (hmi : mi ≤ 99) :
    strptimeN (pad4 y ++ pad2 mo ++ pad2 d ++ pad2 h ++ pad2 mi) 4 =
      if validDateTime y mo d h mi 0 then some (y, mo, d, h, mi, 0) else none := by
  set L := pad4 y ++ pad2 mo ++ pad2 d ++ pad2 h ++ pad2 mi with hL
  have hlen : L.length = 12 := by simp [hL, pad2_length, pad4_length]
  have hdigL : ∀ c ∈ L, isDigitC c = true := by
    intro c hc
    simp only [hL, List.mem_append] at hc
    rcases hc with (((hc | hc) | hc) | hc) | hc
    exacts [pad4_digits y c hc, pad2_digits mo c hc, pad2_digits d c hc,
      pad2_digits h c hc, pad2_digits mi c hc]
  have hdig : isDigits L = true := by
    simp only [isDigits, List.all_eq_true]
    exact hdigL
  have e1 : L = pad4 y ++ (pad2 mo ++ (pad2 d ++ (pad2 h ++ pad2 mi))) := by
    simp [hL, List.append_assoc]
  have e2 : L = (pad4 y ++ pad2 mo) ++ (pad2 d ++ (pad2 h ++ pad2 mi)) := by
    simp [hL, List.append_assoc]
  have e3 : L = (pad4 y ++ pad2 mo ++ pad2 d) ++ (pad2 h ++ pad2 mi) := by
    simp [hL, List.append_assoc]
  have e4 : L = (pad4 y ++ pad2 mo ++ pad2 d ++ pad2 h) ++ pad2 mi := by
    simp [hL, List.append_assoc]
  have t1 : L.take 4 = pad4 y := by rw [e1]; exact List.take_left' (pad4_length y)
  have t2 : (L.drop 4).take 2 = pad2 mo := by
    rw [e1]; exact drop_take_block (pad4_length y) (pad2_length mo)
  have t3 : (L.drop 6).take 2 = pad2 d := by
    rw [e2]
    exact drop_take_block (by simp [pad4_length, pad2_length]) (pad2_length d)
  have t4 : (L.drop 8).take 2 = pad2 h := by
    rw [e3]
    exact drop_take_block (by simp [pad4_length, pad2_length]) (pad2_length h)
  have t5 : (L.drop 10).take 2 = pad2 mi := by
    rw [e4, List.drop_left' (by simp [pad4_length, pad2_length])]
    exact List.take_of_length_le (by simp [pad2_length])
  have t6 : (L.drop 12).take 2 = ([] : List Char) := by
    rw [List.drop_eq_nil_of_le (by omega)]
    rfl
  unfold strptimeN
  rw [if_pos ⟨by omega, hdig⟩, t1, t2, t3, t4, t5, t6,
    digitsVal_pad4 (by omega), digitsVal_pad2 (by omega : mo < 100),
    digitsVal_pad2 (by omega : d < 100), digitsVal_pad2 (by omega : h < 100),
    digitsVal_pad2 (by omega : mi < 100)]
  rfl

theorem strptimeN_pads10 (y mo d h : Nat) (hy : y ≤ 9999) (hmo : mo ≤ 99) (hd : d ≤ 99)
    (hh : h ≤ 99) :
    strptimeN (pad4 y ++ pad2 mo ++ pad2 d ++ pad2 h) 2 =
      if validDateTime y mo d h 0 0 then some (y, mo, d, h, 0, 0) else none := by
  set L := pad4 y ++ pad2 mo ++ pad2 d ++ pad2 h with hL
  have hlen : L.length = 10 := by simp [hL, pad2_length, pad4_length]
  have hdigL : ∀ c ∈ L, isDigitC c = true := by
    intro c hc
    simp only [hL, List.mem_append] at hc
    rcases hc with ((hc | hc) | hc) | hc
    exacts [pad4_digits y c hc, pad2_digits mo c hc, pad2_digits d c hc, pad2_digits h c hc]
  have hdig : isDigits L = true := by
    simp only [isDigits, List.all_eq_true]
    exact hdigL
  have e1 : L = pad4 y ++ (pad2 mo ++ (pad2 d ++ pad2 h)) := by
    simp [hL, List.append_assoc]
  have e2 : L = (pad4 y ++ pad2 mo) ++ (pad2 d ++ pad2 h) := by
    simp [hL, List.append_assoc]
  have e3 : L = (pad4 y ++ pad2 mo ++ pad2 d) ++ pad2 h := by
    simp [hL, List.append_assoc]
  have t1 : L.take 4 = pad4 y := by rw [e1]; exact List.take_left' (pad4_length y)
  have t2 : (L.drop 4).take 2 = pad2 mo := by
    rw [e1]; exact drop_take_block (pad4_length y) (pad2_length mo)
  have t3 : (L.drop 6).take 2 = pad2 d := by
    rw [e2]
    exact drop_take_block (by simp [pad4_length, pad2_length]) (pad2_length d)
  have t4 : (L.drop 8).take 2 = pad2 h := by
    rw [e3, List.drop_left' (by simp [pad4_length, pad2_length])]
    exact List.take_of_length_le (by simp [pad2_length])
  have t5 : (L.drop 10).take 2 = ([] : List Char) := by
    rw [List.drop_eq_nil_of_le (by omega)]
    rfl
  have t6 : (L.drop 12).take 2 = ([] : List Char) := by
    rw [List.drop_eq_nil_of_le (by omega)]
    rfl
  unfold strptimeN
  rw [if_pos ⟨by omega, hdig⟩, t1, t2, t3, t4, t5, t6,
    digitsVal_pad4 (by omega), digitsVal_pad2 (by omega : mo < 100),
    digitsVal_pad2 (by omega : d < 100), digitsVal_pad2 (by omega : h < 100)]
  rfl

theorem strptimeN_pads8 (y mo d : Nat) (hy : y ≤ 9999) (hmo : mo ≤ 99) (hd : d ≤ 99) :
    strptimeN (pad4 y ++ pad2 mo ++ pad2 d) 0 =
      if validDateTime y mo d 0 0 0 then some (y, mo, d, 0, 0, 0) else none := by
  set L := pad4 y ++ pad2 mo ++ pad2 d with hL
  have hlen : L.length = 8 := by simp [hL, pad2_length, pad4_length]
  have hdigL : ∀ c ∈ L, isDigitC c = true := by
    intro c hc
    simp only [hL, List.mem_append] at hc
    rcases hc with (hc | hc) | hc
    exacts [pad4_digits y c hc, pad2_digits mo c hc, pad2_digits d c hc]
  have hdig : isDigits L = true := by
    simp only [isDigits, List.all_eq_true]
    exact hdigL
  have e1 : L = pad4 y ++ (pad2 mo ++ pad2 d) := by
    simp [hL, List.append_assoc]
  have e2 : L = (pad4 y ++ pad2 mo) ++ pad2 d := by
    simp [hL, List.append_assoc]
  have t1 : L.take 4 = pad4 y := by rw [e1]; exact List.take_left' (pad4_length y)
  have t2 : (L.drop 4).take 2 = pad2 mo := by
    rw [e1]; exact drop_take_block (pad4_length y) (pad2_length mo)
  have t3 : (L.drop 6).take 2 = pad2 d := by
    rw [e2, List.drop_left' (by simp [pad4_length, pad2_length])]
    exact List.take_of_length_le (by simp [pad2_length])
  have t4 : (L.drop 8).take 2 = ([] : List Char) := by
    rw [List.drop_eq_nil_of_le (by omega)]
    rfl
  have t5 : (L.drop 10).take 2 = ([] : List Char) := by
    rw [List.drop_eq_nil_of_le (by omega)]
    rfl
  have t6 : (L.drop 12).take 2 = ([] : List Char) := by
    rw [List.drop_eq_nil_of_le (by omega)]
    rfl
  unfold strptimeN
  rw [if_pos ⟨by omega, hdig⟩, t1, t2, t3, t4, t5, t6,
    digitsVal_pad4 (by omega), digitsVal_pad2 (by omega : mo < 100),
    digitsVal_pad2 (by omega : d < 100)]
  rfl

/-! ## `parse_hl7_timestampL` on rendered components -/

theorem parseL_digits (l : List Char) (hdig : ∀ c ∈ l, isDigitC c = true) (hne : l ≠ []) :
    parse_hl7_timestampL l = tsCore l none := by
  have hstrip : stripL l = l :=
    stripL_eq_self l (fun c hc => isSpaceC_eq_false_of_digit (hdig c hc))
  unfold parse_hl7_timestampL
  rw [hstrip, tzSplit_digits l hdig, if_neg hne]

theorem tsL_14 (y mo d h mi s : Nat) (hv : validDateTime y mo d h mi s = true) :
    parse_hl7_timestampL (pad4 y ++ pad2 mo ++ pad2 d ++ pad2 h ++ pad2 mi ++ pad2 s) =
      some (isoDateTime y mo d h mi s) := by
  obtain ⟨hy1, hy2, hm1, hm2, hd1, hd2, hh, hmi, hs⟩ := validDateTime_bounds hv
  set L := pad4 y ++ pad2 mo ++ pad2 d ++ pad2 h ++ pad2 mi ++ pad2 s with hL
  have hlen : L.length = 14 := by simp [hL, pad2_length, pad4_length]
  have hdigL : ∀ c ∈ L, isDigitC c = true := by
    intro c hc
    simp only [hL, List.mem_append] at hc
    rcases hc with ((((hc | hc) | hc) | hc) | hc) | hc
    exacts [pad4_digits y c hc, pad2_digits mo c hc, pad2_digits d c hc,
      pad2_digits h c hc, pad2_digits mi c hc, pad2_digits s c hc]
  have hne : L ≠ [] := by
    intro he
    rw [he] at hlen
    simp at hlen
  rw [parseL_digits L hdigL hne]
  unfold tsCore tsParse
  rw [if_pos (by omega : 14 ≤ L.length), List.take_of_length_le (by omega), hL,
    strptimeN_pads14 y mo d h mi s (by omega) (by omega) (by omega) (by omega) (by omega)
      (by omega), if_pos hv]
  rfl

theorem tsL_12 (y mo d h mi : Nat) (hv : validDateTime y mo d h mi 0 = true) :
    parse_hl7_timestampL (pad4 y ++ pad2 mo ++ pad2 d ++ pad2 h ++ pad2 mi) =
      some (isoDateTime y mo d h mi 0) := by
  obtain ⟨hy1, hy2, hm1, hm2, hd1, hd2, hh, hmi, hs⟩ := validDateTime_bounds hv
  set L := pad4 y ++ pad2 mo ++ pad2 d ++ pad2 h ++ pad2 mi with hL
  have hlen : L.length = 12 := by simp [hL, pad2_length, pad4_length]
  have hdigL : ∀ c ∈ L, isDigitC c = true := by
    intro c hc
    simp only [hL, List.mem_append] at hc
    rcases hc with (((hc | hc) | hc) | hc) | hc
    exacts [pad4_digits y c hc, pad2_digits mo c hc, pad2_digits d c hc,
      pad2_digits h c hc, pad2_digits mi c hc]
  have hne : L ≠ [] := by
    intro he
    rw [he] at hlen
    simp at hlen
  rw [parseL_digits L hdigL hne]
  unfold tsCore tsParse
  rw [if_neg (by omega : ¬ 14 ≤ L.length), if_pos (by omega : 12 ≤ L.length),
    List.take_of_length_le (by omega), hL,
    strptimeN_pads12 y mo d h mi (by omega) (by omega) (by omega) (by omega) (by omega),
    if_pos hv]
  rfl

theorem tsL_10 (y mo d h : Nat) (hv : validDateTime y mo d h 0 0 = true) :
    parse_hl7_timestampL (pad4 y ++ pad2 mo ++ pad2 d ++ pad2 h) =
      some (isoDateTime y mo d h 0 0) := by
  obtain ⟨hy1, hy2, hm1, hm2, hd1, hd2, hh, hmi, hs⟩ := validDateTime_bounds hv
  set L := pad4 y ++ pad2 mo ++ pad2 d ++ pad2 h with hL
  have hlen : L.length = 10 := by simp [hL, pad2_length, pad4_length]
  have hdigL : ∀ c ∈ L, isDigitC c = true := by
    intro c hc
    simp only [hL, List.mem_append] at hc
    rcases hc with ((hc | hc) | hc) | hc
    exacts [pad4_digits y c hc, pad2_digits mo c hc, pad2_digits d c hc, pad2_digits h c hc]
  have hne : L ≠ [] := by
    intro he
    rw [he] at hlen
    simp at hlen
  rw [parseL_digits L hdigL hne]
  unfold tsCore tsParse
  rw [if_neg (by omega : ¬ 14 ≤ L.length), if_neg (by omega : ¬ 12 ≤ L.length),
    if_pos (by omega : 10 ≤ L.length), List.take_of_length_le (by omega), hL,
    strptimeN_pads10 y mo d h (by omega) (by omega) (by omega) (by omega), if_pos hv]
  rfl

theorem tsL_8 (y mo d : Nat) (hy : y ≤ 9999) (hmo : mo ≤ 99) (hd : d ≤ 99) :
    parse_hl7_timestampL (pad4 y ++ pad2 mo ++ pad2 d) =
      if validDateTime y mo d 0 0 0 then some (isoDateTime y mo d 0 0 0) else none := by
  set L := pad4 y ++ pad2 mo ++ pad2 d with hL
  have hlen : L.length = 8 := by simp [hL, pad2_length, pad4_length]
  have hdigL : ∀ c ∈ L, isDigitC c = true := by
    intro c hc
    simp only [hL, List.mem_append] at hc
    rcases hc with (hc | hc) | hc
    exacts [pad4_digits y c hc, pad2_digits mo c hc, pad2_digits d c hc]
  have hne : L ≠ [] := by
    intro he
    rw [he] at hlen
    simp at hlen
  rw [parseL_digits L hdigL hne]
  unfold tsCore tsParse
  rw [if_neg (by omega : ¬ 14 ≤ L.length), if_neg (by omega : ¬ 12 ≤ L.length),
    if_neg (by omega : ¬ 10 ≤ L.length), if_pos (by omega : 8 ≤ L.length),
    List.take_of_length_le (by omega), hL, strptimeN_pads8 y mo d hy hmo hd]
  by_cases hv : validDateTime y mo d 0 0 0 = true
  · rw [if_pos hv, if_pos hv]
    rfl
  · rw [if_neg hv, if_neg hv]
    rfl

theorem tsL_6 (y mo : Nat) (hy1 : 1 ≤ y) (hy : y ≤ 9999) (hm1 : 1 ≤ mo) (hmo : mo ≤ 12) :
    parse_hl7_timestampL (pad4 y ++ pad2 mo) = some (isoDateTime y mo 1 0 0 0) := by
  have hv : validDateTime y mo 1 0 0 0 = true := by
    have := daysInMonth_ge y mo
    simp only [validDateTime, decide_eq_true_eq]
    omega
  set L := pad4 y ++ pad2 mo with hL
  have hlen : L.length = 6 := by simp [hL, pad2_length, pad4_length]
  have hdigL : ∀ c ∈ L, isDigitC c = true := by
    intro c hc
    simp only [hL, List.mem_append] at hc
    rcases hc with hc | hc
    exacts [pad4_digits y c hc, pad2_digits mo c hc]
  have hne : L ≠ [] := by
    intro he
    rw [he] at hlen
    simp at hlen
  rw [parseL_digits L hdigL hne]
  unfold tsCore tsParse
  rw [if_neg (by omega : ¬ 14 ≤ L.length), if_neg (by omega : ¬ 12 ≤ L.length),
    if_neg (by omega : ¬ 10 ≤ L.length), if_neg (by omega : ¬ 8 ≤ L.length),
    if_pos (by omega : 6 ≤ L.length), List.take_of_length_le (by omega),
    show (['0', '1'] : List Char) = pad2 1 from rfl, hL,
    strptimeN_pads8 y mo 1 hy (by omega) (by omega), if_pos hv]
  rfl

theorem tsL_4 (y : Nat) (hy1 : 1 ≤ y) (hy : y ≤ 9999) :
    parse_hl7_timestampL (pad4 y) = some (isoDateTime y 1 1 0 0 0) := by
  have hv : validDateTime y 1 1 0 0 0 = true := by
    have := daysInMonth_ge y 1
    simp only [validDateTime, decide_eq_true_eq]
    omega
  set L := pad4 y with hL
  have hlen : L.length = 4 := by simp [hL, pad4_length]
  have hdigL : ∀ c ∈ L, isDigitC c = true := by
    intro c hc
    rw [hL] at hc
    exact pad4_digits y c hc
  have hne : L ≠ [] := by
    intro he
    rw [he] at hlen
    simp at hlen
  rw [parseL_digits L hdigL hne]
  unfold tsCore tsParse
  rw [if_neg (by omega : ¬ 14 ≤ L.length), if_neg (by omega : ¬ 12 ≤ L.length),
    if_neg (by omega : ¬ 10 ≤ L.length), if_neg (by omega : ¬ 8 ≤ L.length),
    if_neg (by omega : ¬ 6 ≤ L.length), if_pos (by omega : 4 ≤ L.length),
    List.take_of_length_le (by omega),
    show (['0', '1', '0', '1'] : List Char) = pad2 1 ++ pad2 1 from rfl,
    ← List.append_assoc, hL, strptimeN_pads8 y 1 1 hy (by omega) (by omega), if_pos hv]
  rfl

theorem tsL_short (l : List Char) (hdig : ∀ c ∈ l, isDigitC c = true) (hlen : l.length < 4) :
    parse_hl7_timestampL l = none := by
  by_cases hne : l = []
  · subst hne
    rfl
  · rw [parseL_digits l hdig hne]
    unfold tsCore tsParse
    rw [if_neg (by omega), if_neg (by omega), if_neg (by omega), if_neg (by omega),
      if_neg (by omega), if_neg (by omega)]
    rfl

theorem tsL_tz14 (y mo d h mi s : Nat) (hv : validDateTime y mo d h mi s = true)
    (sg z1 z2 z3 z4 : Char) (hsg : sg = '+' ∨ sg = '-') (h1 : isDigitC z1 = true)
    (h2 : isDigitC z2 = true) (h3 : isDigitC z3 = true) (h4 : isDigitC z4 = true) :
    parse_hl7_timestampL
        (pad4 y ++ pad2 mo ++ pad2 d ++ pad2 h ++ pad2 mi ++ pad2 s ++ [sg, z1, z2, z3, z4]) =
      some (isoDateTime y mo d h mi s ++ sg :: z1 :: z2 :: ':' :: z3 :: z4 :: []) := by
  obtain ⟨hy1, hy2, hm1, hm2, hd1, hd2, hh, hmi, hs⟩ := validDateTime_bounds hv
  set B := pad4 y ++ pad2 mo ++ pad2 d ++ pad2 h ++ pad2 mi ++ pad2 s with hB
  have hdigB : ∀ c ∈ B, isDigitC c = true := by
    intro c hc
    simp only [hB, List.mem_append] at hc
    rcases hc with ((((hc | hc) | hc) | hc) | hc) | hc
    exacts [pad4_digits y c hc, pad2_digits mo c hc, pad2_digits d c hc,
      pad2_digits h c hc, pad2_digits mi c hc, pad2_digits s c hc]
  have hlenB : B.length = 14 := by simp [hB, pad2_length, pad4_length]
  set L := B ++ [sg, z1, z2, z3, z4] with hL
  have hlenL : L.length = 19 := by simp [hL, hlenB]
  have hns : ∀ c ∈ L, isSpaceC c = false := by
    intro c hc
    simp only [hL, List.mem_append, List.mem_cons, List.not_mem_nil, or_false] at hc
    rcases hc with hc | hc | hc | hc | hc | hc
    · exact isSpaceC_eq_false_of_digit (hdigB c hc)
    · subst hc
      rcases hsg with hsg | hsg <;> subst hsg <;> rfl
    · subst hc
      exact isSpaceC_eq_false_of_digit h1
    · subst hc
      exact isSpaceC_eq_false_of_digit h2
    · subst hc
      exact isSpaceC_eq_false_of_digit h3
    · subst hc
      exact isSpaceC_eq_false_of_digit h4
  have hstrip : stripL L = L := stripL_eq_self L hns
  have hne : stripL L ≠ [] := by
    rw [hstrip]
    intro he
    rw [he] at hlenL
    simp at hlenL
  have hdropL : L.drop (L.length - 5) = [sg, z1, z2, z3, z4] := by
    rw [hlenL]
    rw [hL]
    exact List.drop_left' (by omega)
  have htakeL : L.take (L.length - 5) = B := by
    rw [hlenL]
    rw [hL]
    exact List.take_left' (by omega)
  have htz : isTZ [sg, z1, z2, z3, z4] = true := by
    rcases hsg with hsg | hsg <;> subst hsg <;> simp [isTZ, h1, h2, h3, h4]
  have htzSplit : tzSplit L = (some [sg, z1, z2, z3, z4], B) := by
    unfold tzSplit
    rw [hdropL, htz, htakeL]
    simp [hlenL]
  unfold parse_hl7_timestampL
  rw [if_neg hne, hstrip, htzSplit]
  show tsCore B (some [sg, z1, z2, z3, z4]) = _
  unfold tsCore tsParse
  rw [if_pos (by rw [hlenB] : 14 ≤ B.length), List.take_of_length_le (by omega), hB,
    strptimeN_pads14 y mo d h mi s (by omega) (by omega) (by omega) (by omega) (by omega)
      (by omega), if_pos hv]
  rfl

/-- C6: timestamp normalization follows the digit-count policy — ≥14
digits give year through second, ≥12 through minute, ≥10 through hour,
≥8 date only at midnight, ≥6 year+month with day 1, ≥4 year only with
month and day 1, fewer than 4 digits give an absent result; the output is
always a second-precision timestamp string, an invalid calendar value
yields an absent result without raising, and a trailing signed 4-digit
zone offset is appended as ±HH:MM; in particular "20250502130000" maps
to 2025-05-02T13:00:00, "1985" to 1985-01-01T00:00:00, and
"20250502130000+0500" additionally carries +05:00. -/
theorem C6_timestamp_policy :
    (∀ y mo d h mi s : Nat, validDateTime y mo d h mi s = true →
      parse_hl7_timestamp ⟨pad4 y ++ pad2 mo ++ pad2 d ++ pad2 h ++ pad2 mi ++ pad2 s⟩ =
        some ⟨isoDateTime y mo d h mi s⟩) ∧
    (∀ y mo d h mi : Nat, validDateTime y mo d h mi 0 = true →
      parse_hl7_timestamp ⟨pad4 y ++ pad2 mo ++ pad2 d ++ pad2 h ++ pad2 mi⟩ =
        some ⟨isoDateTime y mo d h mi 0⟩) ∧
    (∀ y mo d h : Nat, validDateTime y mo d h 0 0 = true →
      parse_hl7_timestamp ⟨pad4 y ++ pad2 mo ++ pad2 d ++ pad2 h⟩ =
        some ⟨isoDateTime y mo d h 0 0⟩) ∧
    (∀ y mo d : Nat, y ≤ 9999 → mo ≤ 99 → d ≤ 99 →
      parse_hl7_timestamp ⟨pad4 y ++ pad2 mo ++ pad2 d⟩ =
        if validDateTime y mo d 0 0 0 then some ⟨isoDateTime y mo d 0 0 0⟩ else none) ∧
    (∀ y mo : Nat, 1 ≤ y → y ≤ 9999 → 1 ≤ mo → mo ≤ 12 →
      parse_hl7_timestamp ⟨pad4 y ++ pad2 mo⟩ = some ⟨isoDateTime y mo 1 0 0 0⟩) ∧
    (∀ y : Nat, 1 ≤ y → y ≤ 9999 →
      parse_hl7_timestamp ⟨pad4 y⟩ = some ⟨isoDateTime y 1 1 0 0 0⟩) ∧
    (∀ t : String, (∀ c ∈ t.data, isDigitC c = true) → t.length < 4 →
      parse_hl7_timestamp t = none) ∧
    (∀ y mo d h mi s : Nat, validDateTime y mo d h mi s = true →
      ∀ sg z1 z2 z3 z4 : Char, sg = '+' ∨ sg = '-' → isDigitC z1 = true →
        isDigitC z2 = true → isDigitC z3 = true → isDigitC z4 = true →
        parse_hl7_timestamp ⟨pad4 y ++ pad2 mo ++ pad2 d ++ pad2 h ++ pad2 mi ++ pad2 s ++
            [sg, z1, z2, z3, z4]⟩ =
          some ⟨isoDateTime y mo d h mi s ++ sg :: z1 :: z2 :: ':' :: z3 :: z4 :: []⟩) ∧
    parse_hl7_timestamp "20250502130000" = some "2025-05-02T13:00:00" ∧
    parse_hl7_timestamp "1985" = some "1985-01-01T00:00:00" ∧
    parse_hl7_timestamp "20250502130000+0500" = some "2025-05-02T13:00:00+05:00" ∧
    parse_hl7_timestamp "20251302" = none := by
  refine ⟨?_, ?_, ?_, ?_, ?_, ?_, ?_, ?_, by rfl, by rfl, by rfl, by rfl⟩
  · intro y mo d h mi s hv
    show (parse_hl7_timestampL
      (pad4 y ++ pad2 mo ++ pad2 d ++ pad2 h ++ pad2 mi ++ pad2 s)).map String.mk = _
    rw [tsL_14 y mo d h mi s hv]
    rfl
  · intro y mo d h mi hv
    show (parse_hl7_timestampL
      (pad4 y ++ pad2 mo ++ pad2 d ++ pad2 h ++ pad2 mi)).map String.mk = _
    rw [tsL_12 y mo d h mi hv]
    rfl
  · intro y mo d h hv
    show (parse_hl7_timestampL (pad4 y ++ pad2 mo ++ pad2 d ++ pad2 h)).map String.mk = _
    rw [tsL_10 y mo d h hv]
    rfl
  · intro y mo d hy hmo hd
    show (parse_hl7_timestampL (pad4 y ++ pad2 mo ++ pad2 d)).map String.mk = _
    rw [tsL_8 y mo d hy hmo hd]
    by_cases hv : validDateTime y mo d 0 0 0 = true
    · rw [if_pos hv, if_pos hv]
      rfl
    · rw [if_neg hv, if_neg hv]
      rfl
  · intro y mo hy1 hy hm1 hmo
    show (parse_hl7_timestampL (pad4 y ++ pad2 mo)).map String.mk = _
    rw [tsL_6 y mo hy1 hy hm1 hmo]
    rfl
  · intro y hy1 hy
    show (parse_hl7_timestampL (pad4 y)).map String.mk = _
    rw [tsL_4 y hy1 hy]
    rfl
  · intro t hdig hlen
    show (parse_hl7_timestampL t.data).map String.mk = _
    rw [tsL_short t.data hdig hlen]
    rfl
  · intro y mo d h mi s hv sg z1 z2 z3 z4 hsg h1 h2 h3 h4
    show (parse_hl7_timestampL (pad4 y ++ pad2 mo ++ pad2 d ++ pad2 h ++ pad2 mi ++ pad2 s ++
      [sg, z1, z2, z3, z4])).map String.mk = _
    rw [tsL_tz14 y mo d h mi s hv sg z1 z2 z3 z4 hsg h1 h2 h3 h4]
    rfl

/-- Witness for C6 at concrete inputs: a full 14-digit value, and the
zone-offset form, evaluated through the theorem itself. -/
theorem C6_timestamp_policy_witness :
    parse_hl7_timestamp ⟨pad4 1999 ++ pad2 12 ++ pad2 31 ++ pad2 23 ++ pad2 59 ++ pad2 58⟩ =
        some ⟨isoDateTime 1999 12 31 23 59 58⟩ ∧
      parse_hl7_timestamp ⟨pad4 2025 ++ pad2 5 ++ pad2 2⟩ =
        (if validDateTime 2025 5 2 0 0 0 then some ⟨isoDateTime 2025 5 2 0 0 0⟩ else none) :=
  ⟨C6_timestamp_policy.1 1999 12 31 23 59 58 (by decide),
    (C6_timestamp_policy.2.2.2.1 2025 5 2 (by decide) (by decide) (by decide))⟩

/-! ## Parsed messages never carry an empty occurrence list -/

theorem insertSeg_vals_ne_nil :
    ∀ (acc : Segments) (k : String) (v : List String), (∀ p ∈ acc, p.2 ≠ []) →
      ∀ p ∈ insertSeg acc k v, p.2 ≠ [] := by
  intro acc
  induction acc with
  | nil =>
    intro k v _ p hp
    simp only [insertSeg, List.mem_singleton] at hp
    subst hp
    simp
  | cons q rest ih =>
    intro k v h p hp
    obtain ⟨k', vs⟩ := q
    simp only [insertSeg] at hp
    by_cases he : k' = k
    · rw [if_pos he] at hp
      rcases List.mem_cons.mp hp with hp | hp
      · subst hp
        simp
      · exact h p (List.mem_cons_of_mem _ hp)
    · rw [if_neg he] at hp
      rcases List.mem_cons.mp hp with hp | hp
      · subst hp
        exact h _ (List.mem_cons_self _ _)
      · exact ih k v (fun r hr => h r (List.mem_cons_of_mem _ hr)) p hp

theorem tokenize_aux_vals_ne_nil (fd : Char) :
    ∀ (segs : List (List Char)) (acc : Segments), (∀ p ∈ acc, p.2 ≠ []) →
      ∀ p ∈ segs.foldl
        (fun acc seg =>
          if seg = [] then acc
          else insertSeg acc (String.mk (seg.take 3)) ((splitCharL seg fd).map String.mk))
        acc, p.2 ≠ [] := by
  intro segs
  induction segs with
  | nil =>
    intro acc h p hp
    simp only [List.foldl_nil] at hp
    exact h p hp
  | cons sg rest ih =>
    intro acc h p hp
    simp only [List.foldl_cons] at hp
    by_cases hsg : sg = []
    · rw [if_pos hsg] at hp
      exact ih acc h p hp
    · rw [if_neg hsg] at hp
      exact ih _ (insertSeg_vals_ne_nil acc _ _ h) p hp

theorem tokenize_vals_ne_nil (segs : List (List Char)) (fd : Char) :
    ∀ p ∈ tokenizeSegments segs fd, p.2 ≠ [] :=
  tokenize_aux_vals_ne_nil fd segs [] (by simp)

theorem parse_message_segments_ne_nil {raw : String} {m : HL7Message}
    (h : parse_message raw = .ok m) : ∀ p ∈ m.segments, p.2 ≠ [] := by
  unfold parse_message at h
  split at h
  · exact absurd h (by simp)
  · split at h
    · exact absurd h (by simp)
    · split at h
      · exact absurd h (by simp)
      · split at h
        · exact absurd h (by simp)
        · injection h with h2
          subst h2
          exact tokenize_vals_ne_nil _ _

theorem segLookup_ne_nil {segs : Segments} (hm : ∀ p ∈ segs, p.2 ≠ []) {k : String}
    {vs : List (List String)} (h : segLookup segs k = some vs) : vs ≠ [] := by
  unfold segLookup at h
  cases hf : List.find? (fun p => p.1 = k) segs with
  | none =>
    rw [hf] at h
    simp at h
  | some p =>
    rw [hf] at h
    simp at h
    subst h
    exact hm p (List.mem_of_find?_eq_some hf)

theorem extract_checked_eq (m : HL7Message) (hm : ∀ p ∈ m.segments, p.2 ≠ []) :
    extract_appointmentChecked m = some (extract_appointment m) := by
  have hS : segLookup m.segments "SCH" = none ∨
      ∃ v t, segLookup m.segments "SCH" = some (v :: t) := by
    cases h : segLookup m.segments "SCH" with
    | none => exact Or.inl rfl
    | some vs =>
      cases vs with
      | nil => exact absurd rfl (segLookup_ne_nil hm h)
      | cons v t => exact Or.inr ⟨v, t, rfl⟩
  have hP : segLookup m.segments "PID" = none ∨
      ∃ v t, segLookup m.segments "PID" = some (v :: t) := by
    cases h : segLookup m.segments "PID" with
    | none => exact Or.inl rfl
    | some vs =>
      cases vs with
      | nil => exact absurd rfl (segLookup_ne_nil hm h)
      | cons v t => exact Or.inr ⟨v, t, rfl⟩
  have hV : segLookup m.segments "PV1" = none ∨
      ∃ v t, segLookup m.segments "PV1" = some (v :: t) := by
    cases h : segLookup m.segments "PV1" with
    | none => exact Or.inl rfl
    | some vs =>
      cases vs with
      | nil => exact absurd rfl (segLookup_ne_nil hm h)
      | cons v t => exact Or.inr ⟨v, t, rfl⟩
  rcases hS with hS | ⟨v1, t1, hS⟩ <;> rcases hP with hP | ⟨v2, t2, hP⟩ <;>
    rcases hV with hV | ⟨v3, t3, hV⟩ <;>
    simp [extract_appointmentChecked, extract_appointment, hS, hP, hV]

/-- C1: for every segment map produced by `parse_message`,
`extract_appointment` never raises: the variant whose raise-capable
operations are explicit (`extract_appointmentChecked`) succeeds and
returns exactly the total extraction result, for all message shapes —
missing, short, or empty SCH/PID/PV1 segments and empty fields
included. -/
theorem C1_extract_never_raises (raw : String) (m : HL7Message)
    (h : parse_message raw = .ok m) :
    extract_appointmentChecked m = some (extract_appointment m) :=
  extract_checked_eq m (parse_message_segments_ne_nil h)

/-- A concrete parse of a short SIU message, for the C1 witness. -/
def c1msg : String := "MSH|^~\\&|a\rSCH|1|x\rPID|1\rPV1|1"

/-- The message `parse_message` produces for `c1msg`. -/
def c1parsed : HL7Message :=
  { raw_message := c1msg,
    segments := [("MSH", [["MSH", "^~\\&", "a"]]), ("SCH", [["SCH", "1", "x"]]),
      ("PID", [["PID", "1"]]), ("PV1", [["PV1", "1"]])],
    delimiters := defaultDelims }

/-- Witness for C1: the theorem applied to a concrete parsed message. -/
theorem C1_extract_never_raises_witness :
    extract_appointmentChecked c1parsed = some (extract_appointment c1parsed) :=
  C1_extract_never_raises c1msg c1parsed (by rfl)

/-! ## Projection helpers for `extract_appointment` -/

theorem extract_datetime_eq (m : HL7Message) :
    (extract_appointment m).appointment_datetime =
      (match segLookup m.segments "SCH" with
       | some segs =>
         if (schDatetime m.delimiters (segs.headD [])).2 then
           (schDatetime m.delimiters (segs.headD [])).1
         else none
       | none => none) := by
  unfold extract_appointment
  cases segLookup m.segments "SCH" <;> cases segLookup m.segments "PID" <;>
    cases segLookup m.segments "PV1" <;> rfl

/-- C5: appointment-datetime candidates are tried in the fixed order SCH
field 11 component 4, then SCH field 2 component 4, then the first
component of SCH field 2 of length ≥ 8 that parses; the first present
candidate wins — in particular, whenever SCH field 11 component 4 is
present, the datetime comes from it, regardless of SCH field 2. -/
theorem C5_datetime_priority :
    (∀ (m : HL7Message) (sch : List String) (rest : List (List String)) (f11 v11 : String),
      segLookup m.segments "SCH" = some (sch :: rest) →
      pyAt sch 11 = some f11 →
      pyAt (safe_split f11 m.delimiters.component) 3 = some v11 →
      (extract_appointment m).appointment_datetime = parse_hl7_timestamp v11) ∧
    (∀ (m : HL7Message) (sch : List String) (rest : List (List String)) (f2 v2 : String),
      segLookup m.segments "SCH" = some (sch :: rest) →
      (∀ f11, pyAt sch 11 = some f11 →
        pyAt (safe_split f11 m.delimiters.component) 3 = none) →
      pyAt sch 2 = some f2 →
      pyAt (safe_split f2 m.delimiters.component) 3 = some v2 →
      (extract_appointment m).appointment_datetime = parse_hl7_timestamp v2) ∧
    (∀ (m : HL7Message) (sch : List String) (rest : List (List String)) (f2 : String),
      segLookup m.segments "SCH" = some (sch :: rest) →
      (∀ f11, pyAt sch 11 = some f11 →
        pyAt (safe_split f11 m.delimiters.component) 3 = none) →
      pyAt sch 2 = some f2 →
      pyAt (safe_split f2 m.delimiters.component) 3 = none →
      (extract_appointment m).appointment_datetime =
        (safe_split f2 m.delimiters.component).findSome?
          (fun c => if c ≠ "" ∧ 8 ≤ c.length then parse_hl7_timestamp c else none)) := by
  refine ⟨?_, ?_, ?_⟩
  · intro m sch rest f11 v11 hS h11 hc
    have hdt : schDatetime m.delimiters sch = (parse_hl7_timestamp v11, true) := by
      simp only [schDatetime, h11, hc]
    rw [extract_datetime_eq m, hS]
    show (if (schDatetime m.delimiters sch).2 then (schDatetime m.delimiters sch).1
      else none) = _
    rw [hdt]
    rfl
  · intro m sch rest f2 v2 hS h11 hf2 hc2
    have hdt : schDatetime m.delimiters sch = (parse_hl7_timestamp v2, true) := by
      have haux : schDatetimeSCH2 m.delimiters sch = (parse_hl7_timestamp v2, true) := by
        simp only [schDatetimeSCH2, hf2, hc2]
      cases h : pyAt sch 11 with
      | none => simp only [schDatetime, h, haux]
      | some f11 => simp only [schDatetime, h, h11 f11 h, haux]
    rw [extract_datetime_eq m, hS]
    show (if (schDatetime m.delimiters sch).2 then (schDatetime m.delimiters sch).1
      else none) = _
    rw [hdt]
    rfl
  · intro m sch rest f2 hS h11 hf2 hc2
    rw [extract_datetime_eq m, hS]
    show (if (schDatetime m.delimiters sch).2 then (schDatetime m.delimiters sch).1
      else none) = _
    cases hfind : (safe_split f2 m.delimiters.component).findSome?
        (fun c => if c ≠ "" ∧ 8 ≤ c.length then parse_hl7_timestamp c else none) with
    | none =>
      have haux : schDatetimeSCH2 m.delimiters sch = (none, false) := by
        simp only [schDatetimeSCH2, hf2, hc2, hfind]
      have hdt : schDatetime m.delimiters sch = (none, false) := by
        cases h : pyAt sch 11 with
        | none => simp only [schDatetime, h, haux]
        | some f11 => simp only [schDatetime, h, h11 f11 h, haux]
      rw [hdt]
      rfl
    | some v =>
      have haux : schDatetimeSCH2 m.delimiters sch = (some v, true) := by
        simp only [schDatetimeSCH2, hf2, hc2, hfind]
      have hdt : schDatetime m.delimiters sch = (some v, true) := by
        cases h : pyAt sch 11 with
        | none => simp only [schDatetime, h, haux]
        | some f11 => simp only [schDatetime, h, h11 f11 h, haux]
      rw [hdt]
      rfl

/-- Witness for C5: a concrete message carrying date-like values in both
SCH field 11 component 4 and SCH field 2 component 4; the field-11 value
wins. -/
theorem C5_datetime_priority_witness :
    (extract_appointment
        { raw_message := "",
          segments := [("SCH", [["SCH", "1", "^^^20240101120000", "", "", "", "", "", "", "",
            "", "^^^20250502130000"]])],
          delimiters := defaultDelims }).appointment_datetime =
      parse_hl7_timestamp "20250502130000" :=
  C5_datetime_priority.1 _ _ [] "^^^20250502130000" "20250502130000" rfl (by rfl) (by rfl)

/-- Helper: PV1 field 3 component 1, when present, decides the final
location regardless of the appointment built so far. -/
theorem pv1Pass_location_of (delims : Delimiters) (pv1 : List String) (a : Appointment)
    (f3 locP : String) (h3 : pyAt pv1 3 = some f3)
    (hc : pyAt (safe_split f3 delims.component) 0 = some locP) :
    (pv1Pass delims pv1 a).location = some locP := by
  simp only [pv1Pass, h3, hc]

/-- C7: when both an SCH-derived location and PV1 field 3 component 1 are
present and non-empty, the final location is the PV1 value. -/
theorem C7_pv1_location_override (m : HL7Message) (sch pv1 : List String)
    (r1 r2 : List (List String)) (locS f3 locP : String)
    (hS : segLookup m.segments "SCH" = some (sch :: r1))
    (_hloc : schLocation m.delimiters sch = some locS)
    (hV : segLookup m.segments "PV1" = some (pv1 :: r2))
    (h3 : pyAt pv1 3 = some f3)
    (hc : pyAt (safe_split f3 m.delimiters.component) 0 = some locP) :
    (extract_appointment m).location = some locP := by
  unfold extract_appointment
  rw [hS, hV]
  cases hP : segLookup m.segments "PID" <;>
    exact pv1Pass_location_of m.delimiters pv1 _ f3 locP h3 hc

/-- Witness for C7: SCH yields location "SCHLOC" (field 4 component 3),
PV1 field 3 component 1 is "OPD"; the extracted location is "OPD". -/
theorem C7_pv1_location_override_witness :
    (extract_appointment
        { raw_message := "",
          segments := [("SCH", [["SCH", "1", "", "", "^^SCHLOC"]]),
            ("PV1", [["PV1", "1", "O", "OPD^203"]])],
          delimiters := defaultDelims }).location = some "OPD" :=
  C7_pv1_location_override _ ["SCH", "1", "", "", "^^SCHLOC"] ["PV1", "1", "O", "OPD^203"]
    [] [] "SCHLOC" "OPD^203" "OPD" rfl (by rfl) rfl (by rfl) (by rfl)

/-- Helper: the provider the appointment carries after the SCH and PID
blocks, when SCH is present and yielded a provider. -/
theorem extract_provider_eq (m : HL7Message) (sch pv1 : List String)
    (r1 r2 : List (List String)) (f7 : String)
    (hS : segLookup m.segments "SCH" = some (sch :: r1))
    (hV : segLookup m.segments "PV1" = some (pv1 :: r2))
    (h7 : pyAt pv1 7 = some f7) :
    (extract_appointment m).provider =
      some (pv1ProviderC (safe_split f7 m.delimiters.component)
        (schProvider m.delimiters sch)) := by
  unfold extract_appointment
  rw [hS, hV]
  have hout : ∀ a : Appointment, a.provider = schProvider m.delimiters sch →
      (pv1Pass m.delimiters pv1 a).provider =
        some (pv1ProviderC (safe_split f7 m.delimiters.component)
          (schProvider m.delimiters sch)) := by
    intro a ha
    simp only [pv1Pass, h7, pv1Provider, ha]
  have hsch : (schPass m.delimiters sch ({} : Appointment)).provider =
      schProvider m.delimiters sch := by
    simp only [schPass]
    cases h : schProvider m.delimiters sch <;> rfl
  cases hP : segLookup m.segments "PID" <;> exact hout _ hsch

/-- C8: with a provider extracted from SCH and a PV1 field 7 override
present, the merge is field-by-field — an absent override id keeps the
SCH id while present name components replace the name, and a present
override id replaces the id while absent name components keep the SCH
name. -/
theorem C8_provider_merge :
    (∀ (m : HL7Message) (sch pv1 : List String) (r1 r2 : List (List String))
      (f7 : String) (p0 : Provider),
      segLookup m.segments "SCH" = some (sch :: r1) →
      schProvider m.delimiters sch = some p0 →
      segLookup m.segments "PV1" = some (pv1 :: r2) →
      pyAt pv1 7 = some f7 →
      pv1ProviderId (safe_split f7 m.delimiters.component) = none →
      ((pyAt (safe_split f7 m.delimiters.component) 1).isSome ∨
        (pyAt (safe_split f7 m.delimiters.component) 2).isSome ∨
        (pyAt (safe_split f7 m.delimiters.component) 3).isSome) →
      (extract_appointment m).provider =
        some { id := p0.id,
               name := joinParts [pyAt (safe_split f7 m.delimiters.component) 2,
                 pyAt (safe_split f7 m.delimiters.component) 1,
                 pyAt (safe_split f7 m.delimiters.component) 3] }) ∧
    (∀ (m : HL7Message) (sch pv1 : List String) (r1 r2 : List (List String))
      (f7 idv : String) (p0 : Provider),
      segLookup m.segments "SCH" = some (sch :: r1) →
      schProvider m.delimiters sch = some p0 →
      segLookup m.segments "PV1" = some (pv1 :: r2) →
      pyAt pv1 7 = some f7 →
      pv1ProviderId (safe_split f7 m.delimiters.component) = some idv →
      pyAt (safe_split f7 m.delimiters.component) 1 = none →
      pyAt (safe_split f7 m.delimiters.component) 2 = none →
      pyAt (safe_split f7 m.delimiters.component) 3 = none →
      (extract_appointment m).provider = some { id := some idv, name := p0.name }) := by
  constructor
  · intro m sch pv1 r1 r2 f7 p0 hS hp0 hV h7 hid hname
    rw [extract_provider_eq m sch pv1 r1 r2 f7 hS hV h7, hp0]
    simp only [pv1ProviderC, hid, if_pos hname]
    rfl
  · intro m sch pv1 r1 r2 f7 idv p0 hS hp0 hV h7 hid h1 h2 h3
    rw [extract_provider_eq m sch pv1 r1 r2 f7 hS hV h7, hp0]
    simp only [pv1ProviderC, hid, h1, h2, h3]
    simp

/-- Witness for C8: SCH field 5 provider (id D1, name "J S MD"), PV1
field 7 carrying only name components; the merged provider keeps id D1
and takes the PV1 name. -/
theorem C8_provider_merge_witness :
    (extract_appointment
        { raw_message := "",
          segments := [("SCH", [["SCH", "1", "", "", "", "^S^J^MD^D1"]]),
            ("PV1", [["PV1", "1", "", "", "", "", "", "^Smith^Jane^MD"]])],
          delimiters := defaultDelims }).provider =
      some { id := some "D1",
             name := joinParts [pyAt (safe_split "^Smith^Jane^MD" '^') 2,
               pyAt (safe_split "^Smith^Jane^MD" '^') 1,
               pyAt (safe_split "^Smith^Jane^MD" '^') 3] } :=
  C8_provider_merge.1 _ ["SCH", "1", "", "", "", "^S^J^MD^D1"]
    ["PV1", "1", "", "", "", "", "", "^Smith^Jane^MD"] [] [] "^Smith^Jane^MD"
    { id := some "D1", name := joinParts [some "J", some "S", some "MD"] }
    rfl (by rfl) rfl (by rfl) (by rfl) (Or.inl (by decide))

/-- Helper: every guarded access into an all-empty component list is
absent. -/
theorem pyAt_of_all_empty {xs : List String} (h : ∀ c ∈ xs, c = "") (i : Nat) :
    pyAt xs i = none := by
  unfold pyAt
  rw [if_neg]
  rintro ⟨hlt, hne⟩
  have hmem : xs.getD i "" ∈ xs := by
    rw [List.getD_eq_getElem xs "" hlt]
    exact List.getElem_mem hlt
  exact hne (h _ hmem)

/-- C10: a PV1 field 7 that is non-empty but has only empty components
still attaches a Provider with both id and name absent when SCH yielded
no provider — an embedded Provider does not imply any provider datum was
present. -/
theorem C10_empty_provider_attached (m : HL7Message) (pv1 : List String)
    (r2 : List (List String)) (f7 : String)
    (hnoS : ∀ segs, segLookup m.segments "SCH" = some segs →
      schProvider m.delimiters (segs.headD []) = none)
    (hV : segLookup m.segments "PV1" = some (pv1 :: r2))
    (h7 : pyAt pv1 7 = some f7)
    (hall : ∀ c ∈ safe_split f7 m.delimiters.component, c = "") :
    (extract_appointment m).provider = some { id := none, name := none } := by
  have hid : pv1ProviderId (safe_split f7 m.delimiters.component) = none := by
    simp only [pv1ProviderId, pyAt_of_all_empty hall]
  have hmerge : ∀ a : Appointment, a.provider = none →
      (pv1Pass m.delimiters pv1 a).provider = some { id := none, name := none } := by
    intro a ha
    simp only [pv1Pass, h7, pv1Provider, ha, pv1ProviderC, hid,
      pyAt_of_all_empty hall]
    rfl
  unfold extract_appointment
  rw [hV]
  cases hS : segLookup m.segments "SCH" with
  | none =>
    cases hP : segLookup m.segments "PID" <;> exact hmerge _ rfl
  | some segs =>
    have hsch : (schPass m.delimiters (segs.headD []) ({} : Appointment)).provider = none := by
      simp only [schPass, hnoS segs hS]
    cases hP : segLookup m.segments "PID" <;> exact hmerge _ hsch

/-- Witness for C10: PV1 field 7 is `"^^^"` and there is no SCH segment;
the extracted appointment carries an all-absent Provider. -/
theorem C10_empty_provider_attached_witness :
    (extract_appointment
        { raw_message := "",
          segments := [("PV1", [["PV1", "1", "O", "", "", "", "", "^^^"]])],
          delimiters := defaultDelims }).provider =
      some { id := none, name := none } := by
  refine C10_empty_provider_attached _ ["PV1", "1", "O", "", "", "", "", "^^^"] [] "^^^"
    ?_ rfl (by rfl) (by decide)
  intro segs hs
  exact Option.noConfusion hs

/-! ## The multi-message splitter (C2) -/

theorem smLoop_step_blank (l : List Char) (rest : List (List Char)) (msgs : List String)
    (cur : List (List Char)) (hb : stripL l = []) :
    smLoop (l :: rest) msgs cur = smLoop rest msgs cur := by
  simp [smLoop, hb]

theorem smLoop_step_msh (l : List Char) (rest : List (List Char)) (msgs : List String)
    (cur : List (List Char)) (hb : stripL l ≠ []) (hM : isMSHLine (stripL l) = true)
    (hcur : cur ≠ []) :
    smLoop (l :: rest) msgs cur =
      smLoop rest (msgs ++ [String.mk (interCR cur)]) [stripL l] := by
  simp [smLoop, hb, hM, hcur]

theorem smLoop_step_acc (l : List Char) (rest : List (List Char)) (msgs : List String)
    (cur : List (List Char)) (hb : stripL l ≠ [])
    (hno : isMSHLine (stripL l) = false ∨ cur = []) :
    smLoop (l :: rest) msgs cur = smLoop rest msgs (cur ++ [stripL l]) := by
  rcases hno with hM | hcur
  · simp [smLoop, hb, hM]
  · subst hcur
    cases hM : isMSHLine (stripL l) <;> simp [smLoop, hb, hM]

theorem smCL_step_msh (l : List Char) (rest : List (List Char)) (msgs : List String)
    (cur : List (List Char)) (hM : isMSHLine l = true) (hcur : cur ≠ []) :
    smChunksLoop (l :: rest) msgs cur =
      smChunksLoop rest (msgs ++ [String.mk (interCR cur)]) [l] := by
  simp [smChunksLoop, hM, hcur]

theorem smCL_step_acc (l : List Char) (rest : List (List Char)) (msgs : List String)
    (cur : List (List Char)) (hno : isMSHLine l = false ∨ cur = []) :
    smChunksLoop (l :: rest) msgs cur = smChunksLoop rest msgs (cur ++ [l]) := by
  rcases hno with hM | hcur
  · simp [smChunksLoop, hM]
  · subst hcur
    cases hM : isMSHLine l <;> simp [smChunksLoop, hM]

theorem clean_cons_blank (l : List Char) (rest : List (List Char)) (hb : stripL l = []) :
    ((l :: rest).map stripL).filter (fun x => x ≠ []) =
      (rest.map stripL).filter (fun x => x ≠ []) := by
  simp [hb]

theorem clean_cons_keep (l : List Char) (rest : List (List Char)) (hb : stripL l ≠ []) :
    ((l :: rest).map stripL).filter (fun x => x ≠ []) =
      stripL l :: (rest.map stripL).filter (fun x => x ≠ []) := by
  simp [hb]

theorem smLoop_eq_clean (ls : List (List Char)) :
    ∀ (msgs : List String) (cur : List (List Char)),
      smLoop ls msgs cur = smChunksLoop ((ls.map stripL).filter (fun x => x ≠ [])) msgs cur := by
  induction ls with
  | nil => intro msgs cur; rfl
  | cons l rest ih =>
    intro msgs cur
    by_cases hb : stripL l = []
    · rw [smLoop_step_blank l rest msgs cur hb, clean_cons_blank l rest hb]
      exact ih msgs cur
    · rw [clean_cons_keep l rest hb]
      cases hM : isMSHLine (stripL l) with
      | true =>
        by_cases hcur : cur = []
        · rw [smLoop_step_acc l rest msgs cur hb (Or.inr hcur),
            smCL_step_acc (stripL l) _ msgs cur (Or.inr hcur)]
          exact ih _ _
        · rw [smLoop_step_msh l rest msgs cur hb hM hcur,
            smCL_step_msh (stripL l) _ msgs cur hM hcur]
          exact ih _ _
      | false =>
        rw [smLoop_step_acc l rest msgs cur hb (Or.inl hM),
          smCL_step_acc (stripL l) _ msgs cur (Or.inl hM)]
        exact ih _ _

theorem smChunksLoop_cons (ls : List (List Char)) :
    ∀ (msgs : List String) (cur : List (List Char)), cur ≠ [] →
      smChunksLoop ls msgs cur =
        msgs ++ String.mk (interCR (cur ++ ls.takeWhile (fun x => !isMSHLine x))) ::
          (specChunks (ls.dropWhile (fun x => !isMSHLine x))).map
            (fun c => String.mk (interCR c)) := by
  induction ls with
  | nil =>
    intro msgs cur hcur
    simp [smChunksLoop, hcur, specChunks]
  | cons l rest ih =>
    intro msgs cur hcur
    cases hM : isMSHLine l with
    | true =>
      rw [smCL_step_msh l rest msgs cur hM hcur, ih _ [l] (by simp)]
      rw [List.takeWhile_cons, List.dropWhile_cons]
      simp only [hM, Bool.not_true, Bool.false_eq_true, if_false]
      rw [show specChunks (l :: rest) =
        (l :: rest.takeWhile (fun x => !isMSHLine x)) ::
          specChunks (rest.dropWhile (fun x => !isMSHLine x)) from by rw [specChunks]]
      simp
    | false =>
      rw [smCL_step_acc l rest msgs cur (Or.inl hM), ih _ (cur ++ [l]) (by simp)]
      rw [List.takeWhile_cons, List.dropWhile_cons]
      simp only [hM, Bool.not_false, if_true]
      simp [List.append_assoc]

theorem smChunksLoop_start (ls : List (List Char)) (msgs : List String) :
    smChunksLoop ls msgs [] =
      msgs ++ (specChunks ls).map (fun c => String.mk (interCR c)) := by
  cases ls with
  | nil => simp [smChunksLoop, specChunks]
  | cons l rest =>
    rw [smCL_step_acc l rest msgs [] (Or.inr rfl), List.nil_append,
      smChunksLoop_cons rest msgs [l] (by simp)]
    rw [show specChunks (l :: rest) =
      (l :: rest.takeWhile (fun x => !isMSHLine x)) ::
        specChunks (rest.dropWhile (fun x => !isMSHLine x)) from by rw [specChunks]]
    simp

/-- Counterexample to C2 as stated: a leading non-MSH line is not
discarded — it is returned as a message of its own, preceding the
MSH-started message. -/
theorem C2_counterexample :
    "JUNK" ∈ split_messages "JUNK\nMSH|A" ∧
      split_messages "JUNK\nMSH|A" = ["JUNK", "MSH|A"] := by
  constructor
  · decide
  · decide

/-- C2 (amended): `split_messages` cleans the lines (line-ending
normalization, per-line strip, blank removal) and then chunks them with a
new message beginning at every MSH-prefixed line after the first chunk;
lines preceding the first MSH boundary are not discarded but form an
initial message of their own; each message accumulates lines up to (not
including) the next boundary, joined with `'\r'`. -/
theorem C2_split_at_boundaries (ft : String) :
    split_messages ft = (specChunks (cleanLines ft)).map (fun c => String.mk (interCR c)) := by
  unfold split_messages cleanLines
  rw [smLoop_eq_clean, smChunksLoop_start]
  simp

/-! ## Error classes (C3) -/

/-- A concrete wrong-type message. -/
def wrongTypeMsg : String :=
  "MSH|^~\\&|SYS|FAC|SYS|FAC|20250502090000||ADT^A01|MSG003|P|2.5"

/-- Counterexample to C3 as stated: the wrong-type rejection and every
structural rejection are raised with the very same exception class
(`InvalidMessageError`), so a caller catching by class cannot tell them
apart, and the batch loop skips both alike. -/
theorem C3_counterexample :
    resultErrClass (parse_siu_message wrongTypeMsg) = resultErrClass (parse_message "") ∧
      resultErrClass (parse_siu_message wrongTypeMsg) = some "InvalidMessageError" ∧
      resultErrClass (parse_message "") = some "InvalidMessageError" ∧
      resultErrClass (parse_message "MSH") = some "InvalidMessageError" ∧
      resultErrClass (parse_message "ABC|1") = some "InvalidMessageError" ∧
      processMessages [wrongTypeMsg, "ABC|1"] = [] :=
  ⟨by rfl, by rfl, by rfl, by rfl, by rfl, by rfl⟩

/-- C3 (amended): every error `parse_message` raises and every error
`validate_siu_message` raises on a parsed message — including the
wrong-type rejection — carries the same exception class,
`InvalidMessageError`; the conditions differ only in the attached message
text, so a batch caller catching that class skips structural failures and
wrong-type failures alike. -/
theorem C3_same_error_class :
    (∀ (raw : String) (e : PyErr), parse_message raw = .error e →
      errClass e = "InvalidMessageError") ∧
    (∀ (raw : String) (m : HL7Message) (e : PyErr), parse_message raw = .ok m →
      validate_siu_message m = .error e → errClass e = "InvalidMessageError") := by
  constructor
  · intro raw e h
    unfold parse_message at h
    split at h
    · injection h with h2
      subst h2
      rfl
    · split at h
      · injection h with h2
        subst h2
        rfl
      · split at h
        · injection h with h2
          subst h2
          rfl
        · split at h
          · injection h with h2
            subst h2
            rfl
          · exact Except.noConfusion h
  · intro raw m e _hp h
    unfold validate_siu_message at h
    split at h
    · injection h with h2
      subst h2
      rfl
    · split at h
      · injection h with h2
        subst h2
        rfl
      · split at h
        · injection h with h2
          subst h2
          rfl
        · exact Except.noConfusion h

/-- A concrete wrong-type parse, for the C3 witness. -/
def c3msg : String := "MSH|^~\\&|x||||||ADT"

/-- The message `parse_message` produces for `c3msg`. -/
def c3parsed : HL7Message :=
  { raw_message := c3msg,
    segments := [("MSH", [["MSH", "^~\\&", "x", "", "", "", "", "", "ADT"]])],
    delimiters := defaultDelims }

/-- Witness for C3 (amended): both a structural error and a wrong-type
error evaluate to class `InvalidMessageError` through the theorem. -/
theorem C3_same_error_class_witness :
    errClass (.invalidMessage "Empty message") = "InvalidMessageError" ∧
      errClass (.invalidMessage "Expected SIU message type, got ADT") =
        "InvalidMessageError" :=
  ⟨C3_same_error_class.1 "" (.invalidMessage "Empty message") (by rfl),
    C3_same_error_class.2 c3msg c3parsed
      (.invalidMessage "Expected SIU message type, got ADT") (by rfl) (by rfl)⟩

/-! ## `get_field` at the failing input (C4) -/

/-- The C4 failing input: a parsed message whose PID field 5 is
`"A^B^C"`. -/
def c4msg : String :=
  "MSH|^~\\&|X||Y||20250502090000||SIU^S12|M1|P|2.5\nPID|||P1||A^B^C"

/-- C4: evaluation of `get_field` at the failing input.  With PID field 5
equal to `"A^B^C"`, the documented 1-based component index 1 returns the
second component `"B"` (the index is used as a 0-based offset), an
out-of-range component index returns the whole field instead of an absent
result, and an empty field is returned as `some ""` rather than `none`;
only the unknown-segment and field-out-of-range cases are absent. -/
theorem C4_get_field_eval :
    (parse_message c4msg).toOption.map
        (fun m => (get_field m "PID" 5 (some 1), get_field m "PID" 5 (some 9),
          get_field m "PID" 4 none, get_field m "ZZZ" 1 none, get_field m "PID" 99 none)) =
      some (some "B", some "A^B^C", some "", none, none) := by
  rfl

/-! ## Delimiter override reach (C9) -/

/-- The C9 message: the header declares `'#'` as the component delimiter
(field 2 is `#~\&` with an empty echo field), the message type is
`SIU#S12` under that delimiter, and PID field 5 is `Doe#John`. -/
def c9msg : String := "MSH||#~\\&||||||SIU#S12\nPID|||P1||Doe#John"

/-- Counterexample to C9 as stated: the parsed message carries `'#'` as
its component delimiter, yet validation rejects the type `SIU#S12`
(because the type field is split on the literal `'^'` only) and the
patient name is not decomposed at `'#'` (the whole `Doe#John` lands in
`last_name` via `parse_name`, which splits on `'^'`). -/
theorem C9_counterexample :
    (parse_message c9msg).toOption.map
        (fun m => (m.delimiters.component, resultErrClass (validate_siu_message m),
          (extract_appointment m).patient.map (fun p => (p.last_name, p.first_name)))) =
      some ('#', some "InvalidMessageError", some (some "Doe#John", none)) := by
  rfl

/-- Helper: when a PID segment is present, the patient is exactly the one
the PID block builds. -/
theorem extract_patient_eq (m : HL7Message) (pid : List String) (r : List (List String))
    (hP : segLookup m.segments "PID" = some (pid :: r)) :
    (extract_appointment m).patient = some (pidPatient pid) := by
  unfold extract_appointment
  rw [hP]
  cases segLookup m.segments "SCH" <;> cases segLookup m.segments "PV1" <;> rfl

/-- C9 (amended): the field delimiter and the four encoding delimiters
are read per message and drive field splitting and the `safe_split`-based
component accesses, but the message-type check in `validate_siu_message`
and the patient-name decomposition via `parse_name` split on the literal
`'^'` and ignore the declared component delimiter: a message type without
a literal `'^'` is compared whole, and PID field 5 is decomposed by
`parse_name`'s `'^'` split, even when the declared component delimiter
differs from `'^'`. -/
theorem C9_literal_caret_split :
    (∀ (m : HL7Message) (msh : List String) (r : List (List String)) (mt : String),
      m.delimiters.component ≠ '^' →
      segLookup m.segments "MSH" = some (msh :: r) →
      8 < msh.length →
      msh.getD 8 "" = mt →
      containsC mt.data '^' = false →
      mt ≠ "SIU" →
      validate_siu_message m =
        .error (.invalidMessage ("Expected SIU message type, got " ++ mt))) ∧
    (∀ (m : HL7Message) (pid : List String) (r : List (List String)) (f5 : String),
      m.delimiters.component ≠ '^' →
      segLookup m.segments "PID" = some (pid :: r) →
      pyAt pid 5 = some f5 →
      (extract_appointment m).patient.map (fun p => (p.last_name, p.first_name)) =
        some ((parse_name f5).1, (parse_name f5).2.1)) := by
  constructor
  · intro m msh r mt _hne hseg hlen hmt hcar hsiu
    have htype : validateMsgType ((msh :: r).headD []) = mt := by
      simp only [List.headD_cons, validateMsgType, hmt, hcar]
      rfl
    unfold validate_siu_message
    rw [hseg]
    show (if ((msh :: r).headD []).length ≤ 8 then _ else _) = _
    rw [if_neg (by simp only [List.headD_cons]; omega), htype, if_pos hsiu]
  · intro m pid r f5 _hne hseg h5
    rw [extract_patient_eq m pid r hseg]
    simp only [Option.map_some']
    have hl : (pidPatient pid).last_name = (parse_name f5).1 := by
      simp only [pidPatient, h5]
    have hf : (pidPatient pid).first_name = (parse_name f5).2.1 := by
      simp only [pidPatient, h5]
    rw [hl, hf]

/-- The message `parse_message` produces for `c9msg`. -/
def c9parsed : HL7Message :=
  { raw_message := c9msg,
    segments := [("MSH", [["MSH", "", "#~\\&", "", "", "", "", "", "SIU#S12"]]),
      ("PID", [["PID", "", "", "P1", "", "Doe#John"]])],
    delimiters :=
      { field := '|', component := '#', subcomponent := '&', repetition := '~',
        escape := '\\' } }

/-- Witness for C9 (amended), at the concrete parsed message with
declared component delimiter `'#'`. -/
theorem C9_literal_caret_split_witness :
    validate_siu_message c9parsed =
        .error (.invalidMessage ("Expected SIU message type, got " ++ "SIU#S12")) ∧
      (extract_appointment c9parsed).patient.map (fun p => (p.last_name, p.first_name)) =
        some ((parse_name "Doe#John").1, (parse_name "Doe#John").2.1) :=
  ⟨C9_literal_caret_split.1 c9parsed ["MSH", "", "#~\\&", "", "", "", "", "", "SIU#S12"] []
      "SIU#S12" (by decide) rfl (by decide) rfl (by decide) (by decide),
    C9_literal_caret_split.2 c9parsed ["PID", "", "", "P1", "", "Doe#John"] [] "Doe#John"
      (by decide) rfl (by rfl)⟩

end HL7
